import Mathlib

/-!
Verification of the Pyrseas reconciliation engine (pyrseas/dbobject):
shallow embedding of the statement-synthesis and diff/ordering code of
`dbtype.py`, `function.py`, `language.py`, `foreign.py` and `schema.py`,
followed by theorems settling the specification claims.

Python dictionaries are embedded as insertion-ordered association lists;
Python attribute presence (`hasattr`) is embedded as `Option` fields;
Python exceptions are embedded with `Except PyErr`.  SQL statement text is
abstracted to tagged constructors that retain the object kind and the
identifiers interpolated into the source format strings.
-/

set_option autoImplicit false

namespace Pyrseas

/-- Python exceptions raised by the embedded code. -/
inductive PyErr where
  /-- a raw `KeyError` from a failed dictionary lookup; carries the key text -/
  | keyError (key : String)
  /-- a `KeyError` whose `args` were replaced with a formatted message -/
  | keyErrorMsg (msg : String)
  /-- a `ValueError` with its message -/
  | valueError (msg : String)
  /-- an `UnboundLocalError`: the named local variable was never assigned -/
  | unboundLocal (name : String)
  /-- an `AttributeError` for the named attribute -/
  | attrError (name : String)
  /-- an `IndexError` from list indexing -/
  | indexError
  /-- a failed `assert` statement -/
  | assertionError
  deriving DecidableEq, Repr

/-- One synthesized SQL statement, abstracted to its statement kind, the
object kind keyword and the identifiers the source interpolates into the
statement text. -/
inductive Sql where
  /-- a `CREATE <objtype> <ident> ...` statement -/
  | create (objtype ident : String)
  /-- an `ALTER <objtype> <ident> RENAME TO <newname>` statement -/
  | rename (objtype ident newname : String)
  /-- an `ALTER <objtype> <ident> OWNER TO <owner>` statement -/
  | alterOwner (objtype ident owner : String)
  /-- an `ALTER <objtype> <ident> OPTIONS (...)` statement (`foreign.py`) -/
  | alterOptions (objtype ident clause : String)
  /-- any other `ALTER <objtype> <ident> ...` statement, with its detail -/
  | alter (objtype ident detail : String)
  /-- a `COMMENT ON <objtype> <ident> ...` statement -/
  | comment (objtype ident : String)
  /-- a `GRANT`/`REVOKE` statement for the identified object -/
  | grant (ident : String)
  /-- a `DROP <objtype> <ident>` statement -/
  | drop (objtype ident : String)
  /-- the `DROP TYPE <ident> CASCADE` statement of `BaseType.drop` -/
  | dropCascade (ident : String)
  /-- the `SET check_function_bodies = false` statement of `ProcDict.diff_map` -/
  | setCheckFunctionBodies
  deriving DecidableEq, Repr

/-- Is this statement a drop statement (`DROP ...`)? -/
def Sql.isDrop : Sql → Bool
  | .drop _ _ => true
  | .dropCascade _ => true
  | _ => false

/-- Is this statement a rename statement? -/
def Sql.isRename : Sql → Bool
  | .rename _ _ _ => true
  | _ => false

/-- Does this statement's text start with `CREATE ` (the test used by
`ProcDict.diff_map` to decide whether to prepend the
`SET check_function_bodies` statement)? -/
def Sql.isCreate : Sql → Bool
  | .create _ _ => true
  | _ => false

/-- A Python value appended to a statement list: a statement string, a nested
list of statements, or `None` (several diff helpers are appended
unconditionally and may yield nothing).  Callers flatten these groups and
remove empty entries. -/
inductive SqlGroup where
  | s : Sql → SqlGroup
  | l : List SqlGroup → SqlGroup
  | nil : SqlGroup

mutual

/-- Flatten one statement group, dropping `None` and empty entries. -/
def flat : SqlGroup → List Sql
  | .s x => [x]
  | .nil => []
  | .l gs => flatList gs

/-- Flatten a list of statement groups. -/
def flatList : List SqlGroup → List Sql
  | [] => []
  | g :: gs => flat g ++ flatList gs

end

/-- Flatten the nested statement lists produced by a `diff_map`/`_drop`
run, as the external caller does, dropping empty entries. -/
def flats (gs : List SqlGroup) : List Sql := flatList gs

theorem flats_nil : flats [] = [] := rfl

theorem flats_cons (g : SqlGroup) (gs : List SqlGroup) :
    flats (g :: gs) = flat g ++ flats gs := rfl

theorem flats_append (as bs : List SqlGroup) :
    flats (as ++ bs) = flats as ++ flats bs := by
  induction as with
  | nil => rfl
  | cons g gs ih =>
      simp only [List.cons_append, flats_cons, ih, List.append_assoc]

/-- No statement in the flattening of these groups is a drop statement. -/
def NoDrops (gs : List SqlGroup) : Prop :=
  ∀ s ∈ flats gs, s.isDrop = false

theorem noDrops_nil : NoDrops [] := by
  intro s hs; simp [flats, flatList] at hs

theorem noDrops_append {as bs : List SqlGroup}
    (ha : NoDrops as) (hb : NoDrops bs) : NoDrops (as ++ bs) := by
  intro s hs
  rw [flats_append] at hs
  rcases List.mem_append.mp hs with h | h
  · exact ha s h
  · exact hb s h

theorem noDrops_cons {g : SqlGroup} {gs : List SqlGroup}
    (hg : ∀ s ∈ flat g, s.isDrop = false) (hgs : NoDrops gs) :
    NoDrops (g :: gs) := by
  intro s hs
  rw [flats_cons] at hs
  rcases List.mem_append.mp hs with h | h
  · exact hg s h
  · exact hgs s h

theorem noDrops_single {g : SqlGroup}
    (hg : ∀ s ∈ flat g, s.isDrop = false) : NoDrops [g] :=
  noDrops_cons hg noDrops_nil

theorem noDrops_of_flats_nil {gs : List SqlGroup} (h : flats gs = []) :
    NoDrops gs := by
  intro s hs; rw [h] at hs; cases hs

/-! ### Ordered dictionaries

Python `dict`s keep insertion order; the collections (`DbObjectDict`
subclasses) are embedded as association lists iterated in order.  Keys are
unique within one collection snapshot. -/

/-- Dictionary lookup (`self[k]`), first matching entry. -/
def lookupKey {κ α : Type} [DecidableEq κ] : List (κ × α) → κ → Option α
  | [], _ => none
  | (k, v) :: r, q => if k = q then some v else lookupKey r q

/-- Membership test (`k in self`). -/
def hasKey {κ α : Type} [DecidableEq κ] (m : List (κ × α)) (q : κ) : Bool :=
  (lookupKey m q).isSome

/-- Key removal (`del self[k]`), removing the (unique) matching entry. -/
def removeKey {κ α : Type} [DecidableEq κ] : List (κ × α) → κ → List (κ × α)
  | [], _ => []
  | (k, v) :: r, q => if k = q then r else (k, v) :: removeKey r q

theorem lookupKey_cons_self {κ α : Type} [DecidableEq κ]
    (k : κ) (v : α) (r : List (κ × α)) : lookupKey ((k, v) :: r) k = some v := by
  simp [lookupKey]

/-! ### String helpers -/

/-- Is the first list a prefix of the second? -/
def isPrefixList {α : Type} [DecidableEq α] : List α → List α → Bool
  | [], _ => true
  | _ :: _, [] => false
  | a :: as, b :: bs => if a = b then isPrefixList as bs else false

/-- Does `sub` occur as a contiguous sublist? -/
def isInfixList {α : Type} [DecidableEq α] (sub : List α) : List α → Bool
  | [] => sub.isEmpty
  | b :: t => isPrefixList sub (b :: t) || isInfixList sub t

theorem isPrefixList_append {α : Type} [DecidableEq α] (sub r : List α) :
    isPrefixList sub (sub ++ r) = true := by
  induction sub with
  | nil => rfl
  | cons a as ih => simp [isPrefixList, ih]

theorem isInfixList_parts {α : Type} [DecidableEq α] (a sub b : List α) :
    isInfixList sub (a ++ (sub ++ b)) = true := by
  induction a with
  | nil =>
      cases hs : sub with
      | nil =>
          cases b with
          | nil => rfl
          | cons x t => simp [isInfixList, isPrefixList]
      | cons s ss =>
          simp [isInfixList, isPrefixList, isPrefixList_append]
  | cons x a' ih =>
      simp [isInfixList, ih]

/-- Does `sub` occur as a contiguous substring of `s`?  Used to express that
an error message "reports" a name. -/
def strMentions (s sub : String) : Bool := isInfixList sub.data s.data

theorem data_append (s t : String) : (s ++ t).data = s.data ++ t.data := by
  cases s; cases t; rfl

theorem strMentions_of_parts (pre mid post sub : String) :
    strMentions (pre ++ sub ++ mid ++ post) sub = true := by
  have h : (pre ++ sub ++ mid ++ post).data
      = pre.data ++ (sub.data ++ (mid.data ++ post.data)) := by
    simp [data_append, List.append_assoc]
  rw [strMentions, h]
  exact isInfixList_parts pre.data sub.data (mid.data ++ post.data)

/-- Split a character list at every occurrence of `c` (Python
`str.split`). -/
def splitOnCharAux (c : Char) : List Char → List Char → List (List Char)
  | [], acc => [acc.reverse]
  | x :: xs, acc =>
    if x = c then acc.reverse :: splitOnCharAux c xs []
    else splitOnCharAux c xs (x :: acc)

/-- Split a string at every occurrence of the character `c`. -/
def strSplitOnChar (c : Char) (s : String) : List String :=
  (splitOnCharAux c s.data []).map (fun l => ⟨l⟩)

/-- Join strings with a separator (used to undo all but the first split,
matching Python `split(sep, 1)` / `partition(sep)`). -/
def joinWith (sep : String) : List String → String
  | [] => ""
  | [x] => x
  | x :: xs => x ++ sep ++ joinWith sep xs

/-- Python `k.partition(" ")`: the part before the first space, whether a
space was found, and the remainder. -/
def partitionSpace (s : String) : String × Bool × String :=
  match strSplitOnChar ' ' s with
  | [x] => (x, false, "")
  | x :: rest => (x, true, joinWith " " rest)
  | [] => (s, false, "")

/-- Python `opt.split("=", 1)` on a `key=value` option string. -/
def splitEq (opt : String) : String × String :=
  match strSplitOnChar '=' opt with
  | [] => ("", "")
  | k :: rest => (k, joinWith "=" rest)

/-- One insertion into a Python `dict`: an existing key has its value
replaced in place, a new key is appended. -/
def dictInsert (m : List (String × String)) (kv : String × String) :
    List (String × String) :=
  if hasKey m kv.1 then
    m.map (fun p => if p.1 = kv.1 then (p.1, kv.2) else p)
  else m ++ [kv]

/-- Build a Python `dict` from key/value pairs. -/
def dictOfPairs (l : List (String × String)) : List (String × String) :=
  l.foldl dictInsert []

/-! ### Generic entity behavior

`DbObject`, `DbSchemaObject` and `DbObjectDict` live in
`pyrseas/dbobject/__init__.py`, which is not among the source files; the
pieces of their behavior the diff code relies on are modelled from the spec
below and marked as such. -/

/-- Modelled from the spec: `quote_id` from `pyrseas/dbobject/__init__.py`
(not among the sources).  Identifier quoting is statement-synthesis detail;
the identifier itself is kept. -/
def quote_id (name : String) : String := name

/-- Modelled from the spec: `DbObject.rename` from
`pyrseas/dbobject/__init__.py` (not among the sources); §4.6: "`rename`
returns a single statement and the caller is responsible for re-keying the
collection". -/
def renameStmt (objtype ident newname : String) : Sql :=
  Sql.rename objtype ident newname

/-- Modelled from the spec: `DbObject.drop` from
`pyrseas/dbobject/__init__.py` (not among the sources): a single
`DROP <objtype> <identifier>` statement, returned as a one-element list. -/
def dropStmts (objtype ident : String) : List SqlGroup :=
  [SqlGroup.s (Sql.drop objtype ident)]

/-- Modelled from the spec: `DbObject.alter_owner` from
`pyrseas/dbobject/__init__.py` (not among the sources). -/
def alterOwnerStmt (objtype ident owner : String) : Sql :=
  Sql.alterOwner objtype ident owner

/-- Modelled from the spec: `DbObject.diff_description` from
`pyrseas/dbobject/__init__.py` (not among the sources); §4.5 step 2 lists
description changes among the alter diff, "producing zero statements if
nothing differs".  The callers append its result unconditionally, so a
no-change result is the `None` group. -/
def diff_description (objtype ident : String) (curDescr desDescr : Option String) :
    SqlGroup :=
  if desDescr ≠ curDescr then SqlGroup.s (Sql.comment objtype ident) else SqlGroup.nil

/-- Modelled from the spec: `DbObject.diff_privileges` from
`pyrseas/dbobject/__init__.py` (not among the sources); §4.5 step 2 lists
privilege changes among the alter diff, zero statements when nothing
differs. -/
def diff_privileges (objtype ident : String) (curPrivs desPrivs : Option String) :
    List SqlGroup :=
  if desPrivs ≠ curPrivs then [SqlGroup.s (Sql.grant ident)] else []

/-- Modelled from the spec: the generic `DbObject.diff_map` from
`pyrseas/dbobject/__init__.py` (not among the sources); §4.5 step 2: the
variant-independent part of the alter diff covers owner, privilege and
description changes, "producing zero statements if nothing differs", and a
null desired-side owner means "do not alter owner, never set owner to
default" (§4.5 tie-breaks). -/
def genericDiff (objtype ident : String)
    (curOwner desOwner curPrivs desPrivs curDescr desDescr : Option String) :
    List SqlGroup :=
  (match desOwner with
   | some o => if some o ≠ curOwner then [SqlGroup.s (alterOwnerStmt objtype ident o)]
               else []
   | none => []) ++
  diff_privileges objtype ident curPrivs desPrivs ++
  [diff_description objtype ident curDescr desDescr]

/-- Modelled from the spec: the `@commentable`, `@grantable` and `@ownable`
decorators from `pyrseas/dbobject/__init__.py` (not among the sources): they
append the owner, privilege and comment statements after the statements of
the wrapped `create`. -/
def decorate (objtype ident : String)
    (owner : Option String) (privileges : Option String)
    (description : Option String) (stmts : List SqlGroup) : List SqlGroup :=
  stmts ++
  (match owner with
   | some o => [SqlGroup.s (alterOwnerStmt objtype ident o)]
   | none => []) ++
  (match privileges with
   | some _ => [SqlGroup.s (Sql.grant ident)]
   | none => []) ++
  (match description with
   | some _ => [SqlGroup.s (Sql.comment objtype ident)]
   | none => [])

/-- Modelled from the spec: `split_schema_obj` from
`pyrseas/dbobject/__init__.py` (not among the sources): split a possibly
schema-qualified object name, defaulting to the given schema. -/
def split_schema_obj (obj : String) (sch : String) : String × String :=
  match strSplitOnChar '.' obj with
  | [s, o] => (s, o)
  | _ => (sch, obj)

theorem genericDiff_self (objtype ident : String)
    (owner privs descr : Option String) :
    flats (genericDiff objtype ident owner owner privs privs descr descr) = [] := by
  cases owner <;>
    simp [genericDiff, diff_privileges, diff_description, flats, flatList, flat]

theorem decorate_noDrops (objtype ident : String)
    (owner privileges description : Option String) (stmts : List SqlGroup)
    (h : NoDrops stmts) :
    NoDrops (decorate objtype ident owner privileges description stmts) := by
  unfold decorate
  refine noDrops_append (noDrops_append (noDrops_append h ?_) ?_) ?_
  · cases owner <;> first
      | exact noDrops_nil
      | exact noDrops_single (by intro s hs; simp [flat] at hs; subst hs; rfl)
  · cases privileges <;> first
      | exact noDrops_nil
      | exact noDrops_single (by intro s hs; simp [flat] at hs; subst hs; rfl)
  · cases description <;> first
      | exact noDrops_nil
      | exact noDrops_single (by intro s hs; simp [flat] at hs; subst hs; rfl)

theorem genericDiff_noDrops (objtype ident : String)
    (a b c d e f : Option String) :
    NoDrops (genericDiff objtype ident a b c d e f) := by
  unfold genericDiff
  refine noDrops_append (noDrops_append ?_ ?_) ?_
  · cases b with
    | none => exact noDrops_nil
    | some o =>
        dsimp only
        split
        · exact noDrops_single (by intro s hs; simp [flat] at hs; subst hs; rfl)
        · exact noDrops_nil
  · unfold diff_privileges
    split
    · exact noDrops_single (by intro s hs; simp [flat] at hs; subst hs; rfl)
    · exact noDrops_nil
  · refine noDrops_single ?_
    unfold diff_description
    split
    · intro s hs; simp [flat] at hs; subst hs; rfl
    · intro s hs; simp [flat] at hs

/-! ### Languages (`pyrseas/dbobject/language.py`) -/

/-- A procedural language definition (`Language`). -/
structure Language where
  name : String
  trusted : Option Bool := none
  owner : Option String := none
  privileges : Option String := none
  description : Option String := none
  oldname : Option String := none
  /-- `hasattr(self, "_ext")`: the language belongs to an extension -/
  ext : Bool := false
  dropped : Option Bool := none
  deriving DecidableEq, Repr

/-- `Language.create`: a `CREATE LANGUAGE` statement, followed by the owner
and comment statements when those attributes are present; nothing for an
extension-owned language. -/
def Language.create (l : Language) : List SqlGroup :=
  if l.ext then [] else
    [SqlGroup.s (Sql.create "LANGUAGE" (quote_id l.name))] ++
    (match l.owner with
     | some o => [SqlGroup.s (alterOwnerStmt "LANGUAGE" l.name o)]
     | none => []) ++
    (match l.description with
     | some _ => [SqlGroup.s (Sql.comment "LANGUAGE" l.name)]
     | none => [])

/-- The inherited generic alter diff applied to a language. -/
def Language.diff_map (self inlng : Language) : List SqlGroup :=
  genericDiff "LANGUAGE" self.name self.owner inlng.owner
    self.privileges inlng.privileges self.description inlng.description

/-- The inherited generic drop applied to a language. -/
def Language.drop (l : Language) : List SqlGroup :=
  dropStmts "LANGUAGE" l.name

/-- The message `LanguageDict.diff_map` installs on the `KeyError` of a
failed rename: `"Previous name "%s" for language "%s" not found"`. -/
def langPrevMsg (old new : String) : String :=
  "Previous name \x27" ++ old ++ "\x27 for language \x27" ++ new ++
    "\x27 not found"

/-- First loop of `LanguageDict.diff_map`: scan the input (desired)
languages against the current collection `self`, emitting per-language
diffs, renames and creates; a rename consumes the old key. -/
def langScanIn (self : List (String × Language)) :
    List (String × Language) →
    Except PyErr (List (String × Language) × List SqlGroup)
  | [] => .ok (self, [])
  | (lng, inlng) :: rest =>
    match lookupKey self lng with
    | some dblng =>
        if inlng.ext then langScanIn self rest
        else
          match langScanIn self rest with
          | .error e => .error e
          | .ok (s, gs) => .ok (s, SqlGroup.l (Language.diff_map dblng inlng) :: gs)
    | none =>
        match inlng.oldname with
        | some old =>
            match lookupKey self old with
            | some oldl =>
                match langScanIn (removeKey self old) rest with
                | .error e => .error e
                | .ok (s, gs) =>
                    .ok (s, SqlGroup.s (renameStmt "LANGUAGE" oldl.name inlng.name) :: gs)
            | none => .error (.keyErrorMsg (langPrevMsg old inlng.name))
        | none =>
            match langScanIn self rest with
            | .error e => .error e
            | .ok (s, gs) => .ok (s, SqlGroup.l (Language.create inlng) :: gs)

/-- Second loop of `LanguageDict.diff_map`: mark for dropping every current
language absent from the input map — except `plpgsql` when the catalog
version is at least 9.0 (90000). -/
def langMark (version : Nat) (inlangs : List (String × Language))
    (self : List (String × Language)) : List (String × Language) :=
  self.map (fun p =>
    if hasKey inlangs p.1 then p
    else if 90000 ≤ version ∧ p.2.name = "plpgsql" then p
    else (p.1, { p.2 with dropped := some true }))

/-- `LanguageDict.diff_map`: generate SQL to transform existing languages. -/
def LanguageDict.diff_map (version : Nat) (self inlangs : List (String × Language)) :
    Except PyErr (List (String × Language) × List SqlGroup) :=
  match langScanIn self inlangs with
  | .error e => .error e
  | .ok (s, gs) => .ok (langMark version inlangs s, gs)

/-- `LanguageDict._drop`: emit a drop statement for every marked language. -/
def LanguageDict._drop (self : List (String × Language)) : List SqlGroup :=
  self.foldr (fun p acc =>
    if p.2.dropped.isSome then SqlGroup.l (Language.drop p.2) :: acc else acc) []

/-- `LanguageDict.from_map` on one entry: partition the key, require the
`language` prefix, create the entity; attributes are copied only when the
body is non-empty — an empty body silently yields a bare language. -/
def langFromMapEntry (key : String) (entry : List (String × String)) :
    Except PyErr Language :=
  match partitionSpace key with
  | (objtype, spc, lng) =>
      if spc = false ∨ objtype ≠ "language" then
        .error (.keyErrorMsg ("Unrecognized object type: " ++ key))
      else if entry.isEmpty then
        .ok { name := lng }
      else
        .ok { name := lng
              trusted := (lookupKey entry "trusted").map (fun _ => true)
              owner := lookupKey entry "owner"
              description := lookupKey entry "description"
              oldname := lookupKey entry "oldname" }

/-! ### Types and domains (`pyrseas/dbobject/dbtype.py`) -/

/-- A composite-type attribute (a column, from `column.py`, which is not
among the sources; the fields are those `Composite.diff_map` reads). -/
structure Attr where
  name : String
  typ : String := ""
  description : Option String := none
  oldname : Option String := none
  dropped : Option Bool := none
  deriving DecidableEq, Repr

/-- Modelled from the spec: `Column.rename` from `column.py` (not among the
sources): a single rename statement. -/
def Attr.rename (a : Attr) (newname : String) : Sql :=
  Sql.rename "ATTRIBUTE" a.name newname

/-- Modelled from the spec: `Column.diff_map` from `column.py` (not among
the sources); §4.5 step 2: zero statements when nothing differs.  Returns
the `(stmt, descr)` pair `Composite.diff_map` consumes: an `ALTER`-clause
fragment for a changed type and a comment statement for a changed
description. -/
def Attr.diff_map (self inattr : Attr) : Option String × Option Sql :=
  ((if inattr.typ ≠ self.typ then some ("ALTER " ++ self.name ++ " TYPE " ++ inattr.typ)
    else none),
   (if inattr.description ≠ self.description then some (Sql.comment "COLUMN" self.name)
    else none))

/-- Modelled from the spec: `Column.add` from `column.py` (not among the
sources): the attribute clause plus an optional comment statement. -/
def Attr.add (a : Attr) : String × Option Sql :=
  (a.name ++ " " ++ a.typ,
   match a.description with
   | some _ => some (Sql.comment "COLUMN" a.name)
   | none => none)

/-- The variant of a `DbType` entity (the Python class of the object). -/
inductive TypeKind where
  | domain | enum | composite | base
  deriving DecidableEq, Repr

/-- A `DbType` entity: a domain, enum, composite or base type, with the
attributes the embedded code reads.  `dep_funcs` maps a support-procedure
role to the resolved procedure's identifier. -/
structure DbTypeObj where
  schema : String
  name : String
  kind : TypeKind
  owner : Option String := none
  privileges : Option String := none
  description : Option String := none
  oldname : Option String := none
  dropped : Option Bool := none
  /-- domain base type (`type` attribute) -/
  typ : Option String := none
  labels : List String := []
  attributes : Option (List Attr) := none
  dep_funcs : List (String × String) := []
  deriving DecidableEq, Repr

/-- `objtype`: `"DOMAIN"` for `Domain`, `"TYPE"` otherwise. -/
def DbTypeObj.objtype (t : DbTypeObj) : String :=
  match t.kind with
  | .domain => "DOMAIN"
  | _ => "TYPE"

/-- Modelled from the spec: `DbSchemaObject.qualname` from
`pyrseas/dbobject/__init__.py` (not among the sources): the
schema-qualified name. -/
def DbTypeObj.qualname (t : DbTypeObj) : String := t.schema ++ "." ++ t.name

/-- `create` for each type variant.  `BaseType.create` emits the shell
`CREATE TYPE`, the dependent-procedure creates, and the full definition;
the other variants emit one `CREATE` statement; all are wrapped by the
`@commentable`/`@ownable` decorators. -/
def DbTypeObj.create (t : DbTypeObj) : List SqlGroup :=
  match t.kind with
  | .base =>
      decorate t.objtype t.qualname t.owner none t.description
        ([SqlGroup.s (Sql.create "TYPE" t.qualname)] ++
         (t.dep_funcs.map (fun rf => SqlGroup.l [SqlGroup.s (Sql.create "FUNCTION" rf.2)])) ++
         [SqlGroup.s (Sql.create "TYPE" t.qualname)])
  | _ =>
      decorate t.objtype t.qualname t.owner none t.description
        [SqlGroup.s (Sql.create t.objtype t.qualname)]

/-- `drop` for a type: `BaseType.drop` overrides the generic drop with
`DROP TYPE ... CASCADE`. -/
def DbTypeObj.drop (t : DbTypeObj) : List SqlGroup :=
  match t.kind with
  | .base => [SqlGroup.s (Sql.dropCascade t.qualname)]
  | _ => dropStmts t.objtype t.qualname

/-- The single drop statement `DbTypeObj.drop` produces. -/
def DbTypeObj.dropStmt (t : DbTypeObj) : Sql :=
  match t.kind with
  | .base => Sql.dropCascade t.qualname
  | _ => Sql.drop t.objtype t.qualname

theorem drop_flat (t : DbTypeObj) : flat (SqlGroup.l t.drop) = [t.dropStmt] := by
  cases h : t.kind <;>
    simp [DbTypeObj.drop, DbTypeObj.dropStmt, dropStmts, flat, flatList, h]

/-- The error `Composite.diff_map` raises when the input type has no
attributes. -/
def compNoAttrsMsg (name : String) : String :=
  "Composite \x27" ++ name ++ "\x27 has no attributes"

/-- The rename check of the `Composite.diff_map` attribute loop: a
requested attribute rename asserts the positional old name and emits the
rename statement. -/
def compRenCheck (sa : List Attr) (num : Nat) (inattr : Attr) :
    Except PyErr (List SqlGroup) :=
  match inattr.oldname with
  | some old =>
      match sa[num]? with
      | some a =>
          if a.name = old then .ok [SqlGroup.s (Attr.rename a inattr.name)]
          else .error .assertionError
      | none => .error .indexError
  | none => .ok []

/-- Append an optional statement (Python appends the value and the caller
discards a `None`). -/
def optSqlStmts (o : Option Sql) : List SqlGroup :=
  match o with
  | some c => [SqlGroup.s c]
  | none => []

/-- The statements the `ADD ATTRIBUTE` branch emits: the `ALTER TYPE ...
ADD ATTRIBUTE` statement and the optional attribute comment. -/
def compAddStmts (qual : String) (inattr : Attr) : List SqlGroup :=
  [SqlGroup.s (Sql.alter "TYPE" qual ("ADD ATTRIBUTE " ++ (Attr.add inattr).1))] ++
  optSqlStmts (Attr.add inattr).2

/-- The statements the existing-attribute branch emits: the `ALTER TYPE`
statement for a changed attribute (when any) and the comment statement for
a changed description (when any). -/
def compDiffStmts (qual : String) (a inattr : Attr) : List SqlGroup :=
  (match (Attr.diff_map a inattr).1 with
   | some d => [SqlGroup.s (Sql.alter "TYPE" qual d)]
   | none => []) ++
  optSqlStmts (Attr.diff_map a inattr).2

/-- The per-attribute body of the `Composite.diff_map` loop: an existing
same-named attribute (positionally, within the live attribute count) is
diffed; a name not among the live attribute names is added. -/
def compAttrHere (qual : String) (sa : List Attr) (attrnames : List String)
    (dbattrs num : Nat) (inattr : Attr) : Except PyErr (List SqlGroup) :=
  if num < dbattrs then
    match sa[num]? with
    | some a =>
        if a.name = inattr.name then .ok (compDiffStmts qual a inattr)
        else if attrnames.contains inattr.name then .ok []
        else .ok (compAddStmts qual inattr)
    | none => .error .indexError
  else if attrnames.contains inattr.name then .ok []
  else .ok (compAddStmts qual inattr)

/-- The attribute loop of `Composite.diff_map`: for each input attribute at
index `num`, apply a requested rename, then diff or add the attribute. -/
def compAttrLoop (qual : String) (sa : List Attr) (attrnames : List String)
    (dbattrs : Nat) : Nat → List Attr → Except PyErr (List SqlGroup)
  | _, [] => .ok []
  | num, inattr :: rest =>
    match compRenCheck sa num inattr with
    | .error e => .error e
    | .ok renStmts =>
      match compAttrHere qual sa attrnames dbattrs num inattr with
      | .error e => .error e
      | .ok here =>
          match compAttrLoop qual sa attrnames dbattrs (num + 1) rest with
          | .error e => .error e
          | .ok tl => .ok (renStmts ++ here ++ tl)

/-- `Composite.diff_map`: generate SQL to transform an existing composite
type, comparing the attribute lists positionally, then the owner and the
description. -/
def Composite.diff_map (self intype : DbTypeObj) : Except PyErr (List SqlGroup) :=
  match intype.attributes with
  | none => .error (.keyErrorMsg (compNoAttrsMsg intype.name))
  | some inattrs =>
      match self.attributes with
      | none => .error (.attrError "attributes")
      | some sa =>
          match compAttrLoop self.qualname sa
              ((sa.filter (fun a => a.dropped = none)).map Attr.name)
              ((sa.filter (fun a => a.dropped = none)).map Attr.name).length
              0 inattrs with
          | .error e => .error e
          | .ok body =>
              .ok (body ++
                   (match intype.owner with
                    | some o => if some o ≠ self.owner
                        then [SqlGroup.s (alterOwnerStmt "TYPE" self.qualname o)]
                        else []
                    | none => []) ++
                   [diff_description self.objtype self.qualname self.description
                      intype.description])

/-- The per-entity alter diff of a type: `Composite` has its own
`diff_map`; `Domain`, `Enum` and `BaseType` inherit the generic one
(modelled from the spec, as `pyrseas/dbobject/__init__.py` is not among the
sources). -/
def DbTypeObj.diff_map (self intype : DbTypeObj) : Except PyErr (List SqlGroup) :=
  match self.kind with
  | .composite => Composite.diff_map self intype
  | _ => .ok (genericDiff self.objtype self.qualname self.owner intype.owner
      self.privileges intype.privileges self.description intype.description)

/-- First loop of `TypeDict.diff_map`: for each input type absent from the
database, create it, or — when it carries `oldname` — rename the old entity
and delete the old key.  The old-key lookup is not guarded by a
`try`/`except`, so a missing old key raises the raw `KeyError`. -/
def typScanIn (self : List ((String × String) × DbTypeObj)) :
    List ((String × String) × DbTypeObj) →
    Except PyErr (List ((String × String) × DbTypeObj) × List SqlGroup)
  | [] => .ok (self, [])
  | ((sch, typ), intype) :: rest =>
    if hasKey self (sch, typ) then typScanIn self rest
    else
      match intype.oldname with
      | none =>
          match typScanIn self rest with
          | .error e => .error e
          | .ok (s, gs) => .ok (s, SqlGroup.l intype.create :: gs)
      | some old =>
          match lookupKey self (sch, old) with
          | none => .error (.keyError ("(" ++ sch ++ ", " ++ old ++ ")"))
          | some t =>
              match typScanIn (removeKey self (sch, old)) rest with
              | .error e => .error e
              | .ok (s, gs) => .ok (s, SqlGroup.s (renameStmt t.objtype t.qualname typ) :: gs)

/-- Second loop of `TypeDict.diff_map`: each existing type missing from the
input map has its `dropped` marker set (the source assigns `False`; only
attribute presence matters); each type still present is diffed. -/
def typScanDb (intypes : List ((String × String) × DbTypeObj)) :
    List ((String × String) × DbTypeObj) →
    Except PyErr (List ((String × String) × DbTypeObj) × List SqlGroup)
  | [] => .ok ([], [])
  | (k, t) :: rest =>
    match lookupKey intypes k with
    | none =>
        match typScanDb intypes rest with
        | .error e => .error e
        | .ok (r, gs) => .ok ((k, { t with dropped := some false }) :: r, gs)
    | some it =>
        match DbTypeObj.diff_map t it with
        | .error e => .error e
        | .ok ds =>
            match typScanDb intypes rest with
            | .error e => .error e
            | .ok (r, gs) => .ok ((k, t) :: r, SqlGroup.l ds :: gs)

/-- `TypeDict.diff_map`: generate SQL to transform existing domains and
types; returns the updated current collection and the statements. -/
def TypeDict.diff_map (self intypes : List ((String × String) × DbTypeObj)) :
    Except PyErr (List ((String × String) × DbTypeObj) × List SqlGroup) :=
  match typScanIn self intypes with
  | .error e => .error e
  | .ok (s1, gs1) =>
      match typScanDb intypes s1 with
      | .error e => .error e
      | .ok (s2, gs2) => .ok (s2, gs1 ++ gs2)

/-- `TypeDict._drop`: drop every marked type; for a marked base type also
drop its `typmod_in`/`typmod_out`/`analyze` support procedures right after
the type's own (cascading) drop. -/
def TypeDict._drop : List ((String × String) × DbTypeObj) → List SqlGroup
  | [] => []
  | (_, t) :: rest =>
    if t.dropped.isSome then
      SqlGroup.l t.drop ::
      ((if t.kind = .base then
          (t.dep_funcs.filter
            (fun rf => ["typmod_in", "typmod_out", "analyze"].contains rf.1)).map
            (fun rf => SqlGroup.l (dropStmts "FUNCTION" rf.2))
        else []) ++ TypeDict._drop rest)
    else TypeDict._drop rest

/-- The classification result of one specification entry in
`TypeDict.from_map`. -/
inductive TypedEntity where
  | domainE | enumE | compositeE | baseE
  deriving DecidableEq, Repr

/-- `TypeDict.from_map` on a map holding the single entry `key ↦ entry`
(`entry` lists the sub-keys with their values): partition the key, require
the `domain` or `type` prefix, and classify.  A `domain` entry with an
empty body raises `ValueError`; a `type` entry is classified by its
discriminating sub-key (`labels` ⇒ Enum, `attributes` ⇒ Composite,
`input` ⇒ BaseType); with none of the three the local variable `dtype` is
never assigned, so a non-empty body raises `UnboundLocalError` at the first
`setattr`, and an empty body falls through without inserting anything. -/
def typeFromMapEntry (key : String) (entry : List (String × String)) :
    Except PyErr (Option TypedEntity) :=
  match partitionSpace key with
  | (objtype, spc, nm) =>
      if spc = false ∨ (objtype ≠ "domain" ∧ objtype ≠ "type") then
        .error (.keyErrorMsg ("Unrecognized object type: " ++ key))
      else if objtype = "domain" then
        if entry.isEmpty then
          .error (.valueError ("Domain \x27" ++ key ++ "\x27 has no specification"))
        else .ok (some .domainE)
      else
        if hasKey entry "labels" then .ok (some .enumE)
        else if hasKey entry "attributes" then .ok (some .compositeE)
        else if hasKey entry "input" then .ok (some .baseE)
        else if entry.isEmpty then .ok none
        else .error (.unboundLocal "dtype")

/-- The expected argument signature for each optional support-procedure
role, from `TypeDict.link_refs`: `receive` ⇒ `internal`, `send` ⇒ the
type's own qualified name, `typmod_in` ⇒ `cstring[]`, `typmod_out` ⇒
`integer`, `analyze` ⇒ `internal`. -/
def optFuncExpectedArg (t : DbTypeObj) (attr : String) : String :=
  if attr = "receive" then "internal"
  else if attr = "send" then t.qualname
  else if attr = "typmod_in" then "cstring[]"
  else if attr = "typmod_out" then "integer"
  else "internal"

/-- The support-procedure resolution step of `TypeDict.link_refs` for the
optional roles: split the stored reference name, then look the procedure up
under `(schema, name, expected argument signature)`; a failed lookup raises
the raw `KeyError`. -/
def resolveOptFunc {π : Type} (dbfuncs : List ((String × String × String) × π))
    (t : DbTypeObj) (attr : String) (ref : String) : Except PyErr π :=
  match split_schema_obj ref t.schema with
  | (sch, fnc) =>
      match lookupKey dbfuncs (sch, fnc, optFuncExpectedArg t attr) with
      | some p => .ok p
      | none => .error (.keyError (sch ++ "." ++ fnc))

/-! ### Procedures (`pyrseas/dbobject/function.py`) -/

/-- A procedure: a `Function` or an `Aggregate` (`isAgg` plays the role of
the Python class), with the attributes the embedded code reads. -/
structure Proc where
  schema : String
  name : String
  arguments : String
  isAgg : Bool := false
  language : Option String := none
  owner : Option String := none
  privileges : Option String := none
  description : Option String := none
  oldname : Option String := none
  dropped : Option Bool := none
  source : Option String := none
  obj_file : Option String := none
  leakproof : Option Bool := none
  /-- `hasattr(self, "_dep_type")`: the function is a support procedure of
  a base type -/
  depType : Bool := false
  /-- the qualified name of the dependent return-type table, when linked -/
  dependent_table : Option String := none
  deriving DecidableEq, Repr

/-- `Proc.identifier`: `qualname(arguments)`. -/
def Proc.identifier (p : Proc) : String :=
  p.schema ++ "." ++ p.name ++ "(" ++ p.arguments ++ ")"

/-- `Proc.objtype` as carried by the two variants. -/
def Proc.objtype (p : Proc) : String := if p.isAgg then "AGGREGATE" else "FUNCTION"

/-- `Function.create`: nothing for a support procedure of a base type
(unless creating for that type); otherwise the dependent table's create (as
a nested list) when linked, then the `CREATE FUNCTION` statement, wrapped
by the `@commentable`/`@grantable`/`@ownable` decorators. -/
def Function.create (self : Proc) (basetype : Bool) : List SqlGroup :=
  if self.depType && !basetype then [] else
    decorate "FUNCTION" self.identifier self.owner self.privileges self.description
      ((match self.dependent_table with
        | some tq => [SqlGroup.l [SqlGroup.s (Sql.create "TABLE" tq)]]
        | none => []) ++
       [SqlGroup.s (Sql.create "FUNCTION" self.identifier)])

/-- `Aggregate.create`: one `CREATE AGGREGATE` statement wrapped by the
decorators. -/
def Aggregate.create (self : Proc) : List SqlGroup :=
  decorate "AGGREGATE" self.identifier self.owner self.privileges self.description
    [SqlGroup.s (Sql.create "AGGREGATE" self.identifier)]

/-- `Function.diff_map`: re-create on changed source, alter owner, adjust
`LEAKPROOF`, then append the privilege and description diffs. -/
def Function.diff_map (self infn : Proc) : List SqlGroup :=
  (match self.source, infn.source with
   | some s, some s2 => if s ≠ s2 then [SqlGroup.l (Function.create self false)] else []
   | _, _ => []) ++
  (match infn.owner with
   | some o => if some o ≠ self.owner
       then [SqlGroup.s (alterOwnerStmt "FUNCTION" self.identifier o)]
       else []
   | none => []) ++
  (if self.leakproof = some true then
     if infn.leakproof = some true then
       [SqlGroup.s (Sql.alter "FUNCTION" self.identifier "LEAKPROOF")]
     else [SqlGroup.s (Sql.alter "FUNCTION" self.identifier "NOT LEAKPROOF")]
   else if infn.leakproof = some true then
     [SqlGroup.s (Sql.alter "FUNCTION" self.identifier "LEAKPROOF")]
   else []) ++
  [SqlGroup.l (diff_privileges "FUNCTION" self.identifier self.privileges
     infn.privileges),
   diff_description "FUNCTION" self.identifier self.description infn.description]

/-- The per-entity alter diff of a procedure: `Function.diff_map` for a
function, the inherited generic diff for an aggregate (modelled from the
spec, as `pyrseas/dbobject/__init__.py` is not among the sources). -/
def Proc.diff_map (self infn : Proc) : List SqlGroup :=
  if self.isAgg then
    genericDiff "AGGREGATE" self.identifier self.owner infn.owner
      self.privileges infn.privileges self.description infn.description
  else Function.diff_map self infn

/-- The inherited generic drop applied to a procedure. -/
def Proc.drop (p : Proc) : List SqlGroup :=
  dropStmts p.objtype p.identifier

/-- The created-statement detection of `ProcDict.diff_map`: take the first
element of a non-empty list entry, then test whether it is a string that
starts with `CREATE `. -/
def groupStartsCreate : SqlGroup → Bool
  | .s x => x.isCreate
  | .l (g :: _) =>
      (match g with
       | .s x => x.isCreate
       | _ => false)
  | _ => false

/-- First loop of `ProcDict.diff_map`: scan the input functions (skipping
aggregates); an absent key is created (tracking the `created` flag) — or,
when it carries `oldname`, the source looks up the same absent key and
always raises the raw `KeyError`; a present key is diffed, scanning the
diff for `CREATE ` statements. -/
def procScanFuncs (self : List ((String × String × String) × Proc)) :
    List ((String × String × String) × Proc) →
    Except PyErr (List SqlGroup × Bool)
  | [] => .ok ([], false)
  | (k, infn) :: rest =>
    if infn.isAgg then procScanFuncs self rest
    else
      match lookupKey self k with
      | none =>
          match infn.oldname with
          | none =>
              match procScanFuncs self rest with
              | .error e => .error e
              | .ok (gs, _) => .ok (SqlGroup.l (Function.create infn false) :: gs, true)
          | some _ =>
              .error (.keyError ("(" ++ k.1 ++ ", " ++ k.2.1 ++ ", " ++ k.2.2 ++ ")"))
      | some f =>
          let ds := Proc.diff_map f infn
          match procScanFuncs self rest with
          | .error e => .error e
          | .ok (gs, c) => .ok (SqlGroup.l ds :: gs, ds.any groupStartsCreate || c)

/-- Second loop of `ProcDict.diff_map`: scan the input aggregates; an
absent key is created — or, with `oldname`, raises the same raw `KeyError`
as the function pass; a present key is diffed. -/
def procScanAggs (self : List ((String × String × String) × Proc)) :
    List ((String × String × String) × Proc) →
    Except PyErr (List SqlGroup)
  | [] => .ok []
  | (k, infn) :: rest =>
    if !infn.isAgg then procScanAggs self rest
    else
      match lookupKey self k with
      | none =>
          match infn.oldname with
          | none =>
              match procScanAggs self rest with
              | .error e => .error e
              | .ok gs => .ok (SqlGroup.l (Aggregate.create infn) :: gs)
          | some _ =>
              .error (.keyError ("(" ++ k.1 ++ ", " ++ k.2.1 ++ ", " ++ k.2.2 ++ ")"))
      | some f =>
          match procScanAggs self rest with
          | .error e => .error e
          | .ok gs => .ok (SqlGroup.l (Proc.diff_map f infn) :: gs)

/-- Third loop of `ProcDict.diff_map`: mark every existing procedure
missing from the input map (the source assigns `False`; only attribute
presence matters). -/
def procMark (infuncs self : List ((String × String × String) × Proc)) :
    List ((String × String × String) × Proc) :=
  self.map (fun p =>
    if hasKey infuncs p.1 then p else (p.1, { p.2 with dropped := some false }))

/-- `ProcDict.diff_map`: functions pass, aggregates pass, absentee marking;
when any `CREATE ` statement was produced in the functions pass, prepend
`SET check_function_bodies = false`. -/
def ProcDict.diff_map (self infuncs : List ((String × String × String) × Proc)) :
    Except PyErr (List ((String × String × String) × Proc) × List SqlGroup) :=
  match procScanFuncs self infuncs with
  | .error e => .error e
  | .ok (gs1, created) =>
      match procScanAggs self infuncs with
      | .error e => .error e
      | .ok gs2 =>
          let stmts := gs1 ++ gs2
          .ok (procMark infuncs self,
               if created then SqlGroup.s Sql.setCheckFunctionBodies :: stmts else stmts)

/-- `ProcDict._drop`: drop the marked aggregates first, then every marked
procedure that is not a support procedure of a base type. -/
def ProcDict._drop (self : List ((String × String × String) × Proc)) :
    List SqlGroup :=
  (self.filterMap (fun p =>
    if p.2.isAgg && p.2.dropped.isSome then some (SqlGroup.l p.2.drop) else none)) ++
  (self.filterMap (fun p =>
    if p.2.dropped.isSome && !p.2.depType then some (SqlGroup.l p.2.drop) else none))

/-- The signature-and-body validation of `ProcDict.from_map` for one entry,
after the key has been partitioned into the object type and the
`name(arguments)` signature: an empty body raises `ValueError`; for a
`Function` (not an `Aggregate`), exactly one of `source` and `obj_file`
must appear among the body's keys, otherwise a `ValueError` is raised. -/
def procEntryBuild (isAgg : Bool) (schemaName nm args : String)
    (entry : List (String × String)) : Except PyErr Proc :=
  if entry.isEmpty then
    .error (.valueError ("Function \x27" ++ nm ++ "\x27 has no specification"))
  else
    let func : Proc :=
      { schema := schemaName, name := nm, arguments := args, isAgg := isAgg
        language := if isAgg then some "internal" else lookupKey entry "language"
        owner := lookupKey entry "owner"
        description := lookupKey entry "description"
        oldname := lookupKey entry "oldname"
        source := lookupKey entry "source"
        obj_file := lookupKey entry "obj_file" }
    if !isAgg then
      let src := hasKey entry "source"
      let obj := hasKey entry "obj_file"
      if (src && obj) || !(src || obj) then
        .error (.valueError ("Function \x27" ++ nm ++
          "\x27: either source or obj_file must be specified"))
      else .ok func
    else .ok func

/-! ### Foreign-data objects (`pyrseas/dbobject/foreign.py`) -/

/-- `DbObjectWithOptions.diff_options`: compare two `key=value` option
lists and build the `OPTIONS (...)` clause with the `ADD`/`SET`/`DROP`
forms; the empty clause is the falsy empty string (here `none`). -/
def diff_options (oldoptions : Option (List String)) (newopts : List String) :
    Option String :=
  let oldopts := dictOfPairs ((oldoptions.getD []).map splitEq)
  let nw := dictOfPairs (newopts.map splitEq)
  let clauses :=
    (nw.filterMap (fun kv =>
      match lookupKey oldopts kv.1 with
      | none => some (kv.1 ++ " \x27" ++ kv.2 ++ "\x27")
      | some ov => if kv.2 ≠ ov then some ("SET " ++ kv.1 ++ " \x27" ++ kv.2 ++ "\x27")
                   else none)) ++
    (oldopts.filterMap (fun kv =>
      if hasKey nw kv.1 then none else some ("DROP " ++ kv.1)))
  if clauses.isEmpty then none
  else some ("OPTIONS (" ++ String.intercalate ", " clauses ++ ")")

/-- `DbObjectWithOptions.diff_map`: the inherited diff (the generic one,
modelled from the spec) followed by an `ALTER ... OPTIONS` statement when
the option lists differ. -/
def DbObjectWithOptions.diff_map (objtype ident : String)
    (curOwner desOwner curPrivs desPrivs curDescr desDescr : Option String)
    (curOpts : Option (List String)) (desOpts : Option (List String)) :
    List SqlGroup :=
  genericDiff objtype ident curOwner desOwner curPrivs desPrivs curDescr desDescr ++
  (match diff_options curOpts (desOpts.getD []) with
   | some cl => [SqlGroup.s (Sql.alterOptions objtype ident cl)]
   | none => [])

/-- A foreign data wrapper (`ForeignDataWrapper`). -/
structure Fdw where
  name : String
  handler : Option String := none
  validator : Option String := none
  options : Option (List String) := none
  owner : Option String := none
  privileges : Option String := none
  description : Option String := none
  oldname : Option String := none
  dropped : Option Bool := none
  deriving DecidableEq, Repr

/-- `ForeignDataWrapper.diff_map`: the with-options diff, then owner and
description. -/
def Fdw.diff_map (self infdw : Fdw) : List SqlGroup :=
  DbObjectWithOptions.diff_map "FOREIGN DATA WRAPPER" (quote_id self.name)
    self.owner infdw.owner self.privileges infdw.privileges
    self.description infdw.description self.options infdw.options ++
  (match infdw.owner with
   | some o => if some o ≠ self.owner
       then [SqlGroup.s (alterOwnerStmt "FOREIGN DATA WRAPPER" self.name o)]
       else []
   | none => []) ++
  [diff_description "FOREIGN DATA WRAPPER" self.name self.description
     infdw.description]

/-- `ForeignDataWrapper.create` wrapped by the decorators. -/
def Fdw.create (w : Fdw) : List SqlGroup :=
  decorate "FOREIGN DATA WRAPPER" w.name w.owner w.privileges w.description
    [SqlGroup.s (Sql.create "FOREIGN DATA WRAPPER" (quote_id w.name))]

/-- The inherited generic drop applied to a wrapper. -/
def Fdw.drop (w : Fdw) : List SqlGroup :=
  dropStmts "FOREIGN DATA WRAPPER" w.name

/-- First loop of `ForeignDataWrapperDict.diff_map`. -/
def fdwScanIn (self : List (String × Fdw)) :
    List (String × Fdw) → Except PyErr (List (String × Fdw) × List SqlGroup)
  | [] => .ok (self, [])
  | (fdw, infdw) :: rest =>
    match lookupKey self fdw with
    | some dbw =>
        match fdwScanIn self rest with
        | .error e => .error e
        | .ok (s, gs) => .ok (s, SqlGroup.l (Fdw.diff_map dbw infdw) :: gs)
    | none =>
        match infdw.oldname with
        | some old =>
            match lookupKey self old with
            | some oldw =>
                match fdwScanIn (removeKey self old) rest with
                | .error e => .error e
                | .ok (s, gs) => .ok (s, SqlGroup.s (renameStmt "FOREIGN DATA WRAPPER"
                    oldw.name infdw.name) :: gs)
            | none => .error (.keyErrorMsg ("Previous name \x27" ++ old ++
                "\x27 for data wrapper \x27" ++ infdw.name ++ "\x27 not found"))
        | none =>
            match fdwScanIn self rest with
            | .error e => .error e
            | .ok (s, gs) => .ok (s, SqlGroup.l (Fdw.create infdw) :: gs)

/-- `ForeignDataWrapperDict.diff_map`: scan the input wrappers, then mark
every absentee. -/
def ForeignDataWrapperDict.diff_map (self inwrappers : List (String × Fdw)) :
    Except PyErr (List (String × Fdw) × List SqlGroup) :=
  match fdwScanIn self inwrappers with
  | .error e => .error e
  | .ok (s, gs) =>
      .ok (s.map (fun p =>
        if hasKey inwrappers p.1 then p
        else (p.1, { p.2 with dropped := some true })), gs)

/-- `ForeignDataWrapperDict._drop`. -/
def ForeignDataWrapperDict._drop (self : List (String × Fdw)) : List SqlGroup :=
  self.filterMap (fun p =>
    if p.2.dropped.isSome then some (SqlGroup.l p.2.drop) else none)

/-- A foreign server (`ForeignServer`), keyed by `(wrapper, name)`. -/
structure Server where
  wrapper : String
  name : String
  stype : Option String := none
  version : Option String := none
  options : Option (List String) := none
  owner : Option String := none
  privileges : Option String := none
  description : Option String := none
  oldname : Option String := none
  dropped : Option Bool := none
  deriving DecidableEq, Repr

/-- `ForeignServer.identifier`. -/
def Server.identifier (s : Server) : String := quote_id s.name

/-- `ForeignServer.diff_map`: the with-options diff, then owner and
description. -/
def Server.diff_map (self insrv : Server) : List SqlGroup :=
  DbObjectWithOptions.diff_map "SERVER" self.identifier
    self.owner insrv.owner self.privileges insrv.privileges
    self.description insrv.description self.options insrv.options ++
  (match insrv.owner with
   | some o => if some o ≠ self.owner
       then [SqlGroup.s (alterOwnerStmt "SERVER" self.name o)]
       else []
   | none => []) ++
  [diff_description "SERVER" self.name self.description insrv.description]

/-- `ForeignServer.create` wrapped by the decorators. -/
def Server.create (s : Server) : List SqlGroup :=
  decorate "SERVER" s.name s.owner s.privileges s.description
    [SqlGroup.s (Sql.create "SERVER" (quote_id s.name))]

/-- The inherited generic drop applied to a server. -/
def Server.drop (s : Server) : List SqlGroup :=
  dropStmts "SERVER" s.identifier

/-- First loop of `ForeignServerDict.diff_map`.  In the rename branch the
source runs `del self[oldname]` with the bare name, but the collection is
keyed by `(wrapper, name)` tuples, so the deletion always raises `KeyError`
inside the `try` block and the rename is reported as a failed lookup. -/
def srvScanIn (self : List ((String × String) × Server)) :
    List ((String × String) × Server) →
    Except PyErr (List ((String × String) × Server) × List SqlGroup)
  | [] => .ok (self, [])
  | ((fdw, srv), insrv) :: rest =>
    match lookupKey self (fdw, srv) with
    | some dbs =>
        match srvScanIn self rest with
        | .error e => .error e
        | .ok (s, gs) => .ok (s, SqlGroup.l (Server.diff_map dbs insrv) :: gs)
    | none =>
        match insrv.oldname with
        | some old =>
            match lookupKey self (fdw, old) with
            | some _ =>
                .error (.keyErrorMsg ("Previous name \x27" ++ old ++
                  "\x27 for dictionary \x27" ++ insrv.name ++ "\x27 not found"))
            | none => .error (.keyErrorMsg ("Previous name \x27" ++ old ++
                "\x27 for dictionary \x27" ++ insrv.name ++ "\x27 not found"))
        | none =>
            match srvScanIn self rest with
            | .error e => .error e
            | .ok (s, gs) => .ok (s, SqlGroup.l (Server.create insrv) :: gs)

/-- `ForeignServerDict.diff_map`: scan the input servers, then mark every
absentee. -/
def ForeignServerDict.diff_map (self inservers : List ((String × String) × Server)) :
    Except PyErr (List ((String × String) × Server) × List SqlGroup) :=
  match srvScanIn self inservers with
  | .error e => .error e
  | .ok (s, gs) =>
      .ok (s.map (fun p =>
        if hasKey inservers p.1 then p
        else (p.1, { p.2 with dropped := some true })), gs)

/-- `ForeignServerDict._drop`. -/
def ForeignServerDict._drop (self : List ((String × String) × Server)) :
    List SqlGroup :=
  self.filterMap (fun p =>
    if p.2.dropped.isSome then some (SqlGroup.l p.2.drop) else none)

/-- A user mapping (`UserMapping`), keyed by `(wrapper, server, name)`. -/
structure UserMap where
  wrapper : String
  server : String
  name : String
  options : Option (List String) := none
  oldname : Option String := none
  dropped : Option Bool := none
  deriving DecidableEq, Repr

/-- `UserMapping.identifier`: `FOR <user> SERVER <server>`. -/
def UserMap.identifier (u : UserMap) : String :=
  "FOR " ++ u.name ++ " SERVER " ++ quote_id u.server

/-- The with-options diff applied to a user mapping (it has no owner,
privileges or description attributes). -/
def UserMap.diff_map (self inump : UserMap) : List SqlGroup :=
  DbObjectWithOptions.diff_map "USER MAPPING" self.identifier
    none none none none none none self.options inump.options

/-- `UserMapping.create`. -/
def UserMap.create (u : UserMap) : List SqlGroup :=
  [SqlGroup.s (Sql.create "USER MAPPING" u.identifier)]

/-- The inherited generic drop applied to a user mapping. -/
def UserMap.drop (u : UserMap) : List SqlGroup :=
  dropStmts "USER MAPPING" u.identifier

/-- First loop of `UserMappingDict.diff_map`. -/
def umScanIn (self : List ((String × String × String) × UserMap)) :
    List ((String × String × String) × UserMap) →
    Except PyErr (List ((String × String × String) × UserMap) × List SqlGroup)
  | [] => .ok (self, [])
  | ((fdw, srv, usr), inump) :: rest =>
    match lookupKey self (fdw, srv, usr) with
    | some dbum =>
        match umScanIn self rest with
        | .error e => .error e
        | .ok (s, gs) => .ok (s, SqlGroup.l (UserMap.diff_map dbum inump) :: gs)
    | none =>
        match inump.oldname with
        | some old =>
            match lookupKey self (fdw, srv, old) with
            | some oldu =>
                match umScanIn (removeKey self (fdw, srv, old)) rest with
                | .error e => .error e
                | .ok (s, gs) => .ok (s, SqlGroup.s (renameStmt "USER MAPPING"
                    oldu.identifier inump.name) :: gs)
            | none => .error (.keyErrorMsg ("Previous name \x27" ++ old ++
                "\x27 for user mapping \x27" ++ inump.name ++ "\x27 not found"))
        | none =>
            match umScanIn self rest with
            | .error e => .error e
            | .ok (s, gs) => .ok (s, SqlGroup.l (UserMap.create inump) :: gs)

/-- `UserMappingDict.diff_map`: scan the input mappings, then — unlike the
other kinds — append a drop statement directly for every current mapping
absent from the input map; there is no `dropped` marking and no `_drop`
pass for user mappings. -/
def UserMappingDict.diff_map
    (self inusermaps : List ((String × String × String) × UserMap)) :
    Except PyErr (List ((String × String × String) × UserMap) × List SqlGroup) :=
  match umScanIn self inusermaps with
  | .error e => .error e
  | .ok (s, gs) =>
      let dropGs := s.filterMap (fun p =>
        if hasKey inusermaps p.1 then none else some (SqlGroup.l p.2.drop))
      .ok (s, gs ++ dropGs)

/-- A foreign table (`ForeignTable`), keyed by `(schema, name)`. -/
structure FTable where
  schema : String
  name : String
  server : Option String := none
  options : Option (List String) := none
  columns : Option (List Attr) := none
  owner : Option String := none
  privileges : Option String := none
  description : Option String := none
  oldname : Option String := none
  dropped : Option Bool := none
  deriving DecidableEq, Repr

/-- Modelled from the spec: `DbSchemaObject.qualname` (not among the
sources). -/
def FTable.qualname (t : FTable) : String := t.schema ++ "." ++ t.name

/-- `FTable.identifier`: the qualified name. -/
def FTable.identifier (t : FTable) : String := t.qualname

/-- Modelled from the spec: `Table.diff_map` from `table.py` (not among the
sources), reached through the method-resolution order from
`ForeignTable.diff_map`; §4.5 step 2: the column-list alter diff plus the
generic diff, zero statements when nothing differs. -/
def Table.diff_map (self intbl : FTable) : List SqlGroup :=
  genericDiff "FOREIGN TABLE" self.qualname self.owner intbl.owner
    self.privileges intbl.privileges self.description intbl.description ++
  (if self.columns ≠ intbl.columns
   then [SqlGroup.s (Sql.alter "FOREIGN TABLE" self.qualname "columns")]
   else [])

/-- `ForeignTable.diff_map`: the inherited diff (`Table.diff_map`, then the
options clause of `DbObjectWithOptions.diff_map`), then owner and
description. -/
def FTable.diff_map (self intbl : FTable) : List SqlGroup :=
  Table.diff_map self intbl ++
  (match diff_options self.options ((intbl.options).getD []) with
   | some cl => [SqlGroup.s (Sql.alterOptions "FOREIGN TABLE" self.identifier cl)]
   | none => []) ++
  (match intbl.owner with
   | some o => if some o ≠ self.owner
       then [SqlGroup.s (alterOwnerStmt "FOREIGN TABLE" self.qualname o)]
       else []
   | none => []) ++
  [diff_description "FOREIGN TABLE" self.qualname self.description intbl.description]

/-- `ForeignTable.create`: the `CREATE FOREIGN TABLE` statement, the owner
and comment statements, and the column comments, wrapped by
`@grantable`. -/
def FTable.create (t : FTable) : List SqlGroup :=
  decorate "FOREIGN TABLE" t.qualname none t.privileges none
    ([SqlGroup.s (Sql.create "FOREIGN TABLE" t.qualname)] ++
     (match t.owner with
      | some o => [SqlGroup.s (alterOwnerStmt "FOREIGN TABLE" t.qualname o)]
      | none => []) ++
     (match t.description with
      | some _ => [SqlGroup.s (Sql.comment "FOREIGN TABLE" t.qualname)]
      | none => []) ++
     ((t.columns.getD []).filterMap (fun c =>
        match c.description with
        | some _ => some (SqlGroup.s (Sql.comment "COLUMN" c.name))
        | none => none)))

/-- `ForeignTable.drop`: `DROP FOREIGN TABLE <identifier>` (a single
statement, not a list). -/
def FTable.drop (t : FTable) : Sql :=
  Sql.drop "FOREIGN TABLE" t.identifier

/-- First loop of `ForeignTableDict.diff_map`: only absent input keys are
handled here (rename with old-key deletion, or create). -/
def ftbScanIn (self : List ((String × String) × FTable)) :
    List ((String × String) × FTable) →
    Except PyErr (List ((String × String) × FTable) × List SqlGroup)
  | [] => .ok (self, [])
  | ((sch, tbl), intbl) :: rest =>
    if hasKey self (sch, tbl) then ftbScanIn self rest
    else
      match intbl.oldname with
      | some old =>
          match lookupKey self (sch, old) with
          | some oldt =>
              match ftbScanIn (removeKey self (sch, old)) rest with
              | .error e => .error e
              | .ok (s, gs) => .ok (s, SqlGroup.s (renameStmt "FOREIGN TABLE"
                  oldt.qualname intbl.name) :: gs)
          | none => .error (.keyErrorMsg ("Previous name \x27" ++ old ++
              "\x27 for foreign table \x27" ++ intbl.name ++ "\x27 not found"))
      | none =>
          match ftbScanIn self rest with
          | .error e => .error e
          | .ok (s, gs) => .ok (s, SqlGroup.l (FTable.create intbl) :: gs)

/-- Second loop of `ForeignTableDict.diff_map`: a current table absent from
the input map gets its drop statement appended directly (no `dropped`
marking, no deferred pass); a present one is diffed. -/
def ftbScanDb (intables : List ((String × String) × FTable)) :
    List ((String × String) × FTable) → List SqlGroup
  | [] => []
  | (k, t) :: rest =>
    match lookupKey intables k with
    | none => SqlGroup.s t.drop :: ftbScanDb intables rest
    | some it => SqlGroup.l (FTable.diff_map t it) :: ftbScanDb intables rest

/-- `ForeignTableDict.diff_map`. -/
def ForeignTableDict.diff_map (self intables : List ((String × String) × FTable)) :
    Except PyErr (List ((String × String) × FTable) × List SqlGroup) :=
  match ftbScanIn self intables with
  | .error e => .error e
  | .ok (s, gs) => .ok (s, gs ++ ftbScanDb intables s)

/-! ### Schemas (`pyrseas/dbobject/schema.py`) -/

/-- A database schema (`Schema`), keyed by name. -/
structure Schema where
  name : String
  owner : Option String := none
  privileges : Option String := none
  description : Option String := none
  oldname : Option String := none
  dropped : Option Bool := none
  deriving DecidableEq, Repr

/-- `Schema.create` wrapped by the decorators. -/
def Schema.create (s : Schema) : List SqlGroup :=
  decorate "SCHEMA" s.name s.owner s.privileges s.description
    [SqlGroup.s (Sql.create "SCHEMA" (quote_id s.name))]

/-- The inherited generic alter diff applied to a schema. -/
def Schema.diff_map (self insch : Schema) : List SqlGroup :=
  genericDiff "SCHEMA" self.name self.owner insch.owner
    self.privileges insch.privileges self.description insch.description

/-- The inherited generic drop applied to a schema. -/
def Schema.drop (s : Schema) : List SqlGroup :=
  dropStmts "SCHEMA" s.name

/-- First loop of `SchemaDict.diff_map`: diff the schemas present in both,
rename on `oldname` (with the both-names `KeyError` message), and create
the new ones — except that a schema named `pg_catalog` is never created. -/
def schScanIn (self : List (String × Schema)) :
    List (String × Schema) →
    Except PyErr (List (String × Schema) × List SqlGroup)
  | [] => .ok (self, [])
  | (sch, insch) :: rest =>
    match lookupKey self sch with
    | some dbsch =>
        match schScanIn self rest with
        | .error e => .error e
        | .ok (s, gs) => .ok (s, SqlGroup.l (Schema.diff_map dbsch insch) :: gs)
    | none =>
        match insch.oldname with
        | some old =>
            match lookupKey self old with
            | some olds =>
                match schScanIn (removeKey self old) rest with
                | .error e => .error e
                | .ok (s, gs) => .ok (s, SqlGroup.s (renameStmt "SCHEMA" olds.name
                    insch.name) :: gs)
            | none => .error (.keyErrorMsg ("Previous name \x27" ++ old ++
                "\x27 for schema \x27" ++ insch.name ++ "\x27 not found"))
        | none =>
            if insch.name = "pg_catalog" then schScanIn self rest
            else
              match schScanIn self rest with
              | .error e => .error e
              | .ok (s, gs) => .ok (s, SqlGroup.l (Schema.create insch) :: gs)

/-- `SchemaDict.diff_map`: scan the input schemas, then mark every
absentee for dropping — except the keys `public` and `pg_catalog`, which
are never marked. -/
def SchemaDict.diff_map (self inschemas : List (String × Schema)) :
    Except PyErr (List (String × Schema) × List SqlGroup) :=
  match schScanIn self inschemas with
  | .error e => .error e
  | .ok (s, gs) =>
      .ok (s.map (fun p =>
        if p.1 ≠ "public" ∧ p.1 ≠ "pg_catalog" ∧ hasKey inschemas p.1 = false
        then (p.1, { p.2 with dropped := some true })
        else p), gs)

/-- `SchemaDict._drop`: drop every marked schema — except the key
`public`, which is never dropped. -/
def SchemaDict._drop (self : List (String × Schema)) : List SqlGroup :=
  self.filterMap (fun p =>
    if p.1 ≠ "public" ∧ p.2.dropped.isSome then some (SqlGroup.l p.2.drop) else none)

/-! ### Collection lemmas -/

/-- Key uniqueness within one collection snapshot (spec §3: "A key is never
reused for two different entities within one collection snapshot"). -/
def NoDupKeys {κ α : Type} (m : List (κ × α)) : Prop :=
  (m.map Prod.fst).Nodup

theorem mem_of_mem_removeKey {κ α : Type} [DecidableEq κ]
    {m : List (κ × α)} {q : κ} {p : κ × α} (h : p ∈ removeKey m q) : p ∈ m := by
  induction m with
  | nil => simpa [removeKey] using h
  | cons a r ih =>
      obtain ⟨k, v⟩ := a
      by_cases hk : k = q
      · simp [removeKey, hk] at h
        exact List.mem_cons_of_mem _ h
      · simp [removeKey, hk] at h
        rcases h with h | h
        · exact h ▸ List.mem_cons_self _ _
        · exact List.mem_cons_of_mem _ (ih h)

theorem mem_removeKey_of_ne {κ α : Type} [DecidableEq κ]
    {m : List (κ × α)} {q : κ} {p : κ × α} (h : p ∈ m) (hne : p.1 ≠ q) :
    p ∈ removeKey m q := by
  induction m with
  | nil => simpa [removeKey] using h
  | cons a r ih =>
      obtain ⟨k, v⟩ := a
      rcases List.mem_cons.mp h with h | h
      · subst h
        simp only [removeKey]
        rw [if_neg hne]
        exact List.mem_cons_self _ _
      · by_cases hk : k = q
        · simp [removeKey, hk]
          exact h
        · simp only [removeKey]
          rw [if_neg hk]
          exact List.mem_cons_of_mem _ (ih h)

theorem lookupKey_eq_of_mem {κ α : Type} [DecidableEq κ]
    {m : List (κ × α)} {k : κ} {v : α}
    (hnd : NoDupKeys m) (h : (k, v) ∈ m) : lookupKey m k = some v := by
  induction m with
  | nil => cases h
  | cons a r ih =>
      obtain ⟨k0, v0⟩ := a
      rcases List.mem_cons.mp h with h | h
      · obtain ⟨hk, hv⟩ := Prod.mk.injEq .. ▸ h
        injection h with h1
        simp_all [lookupKey]
      · by_cases hk : k0 = k
        · subst hk
          exfalso
          have : k0 ∈ r.map Prod.fst :=
            List.mem_map.mpr ⟨(k0, v), h, rfl⟩
          exact (List.nodup_cons.mp hnd).1 this
        · have hr : NoDupKeys r := (List.nodup_cons.mp hnd).2
          simp [lookupKey, hk, ih hr h]

theorem not_mem_of_lookupKey_none {κ α : Type} [DecidableEq κ]
    {m : List (κ × α)} {k : κ} (h : lookupKey m k = none) (v : α) :
    (k, v) ∉ m := by
  induction m with
  | nil => simp
  | cons a r ih =>
      obtain ⟨k0, v0⟩ := a
      by_cases hk : k0 = k
      · simp [lookupKey, hk] at h
      · simp only [lookupKey, hk, if_false] at h
        intro hmem
        rcases List.mem_cons.mp hmem with hh | hh
        · exact hk (congrArg Prod.fst hh).symm
        · exact ih h hh

theorem map_id_of_mem {α : Type} {l : List α} {f : α → α}
    (h : ∀ a ∈ l, f a = a) : l.map f = l := by
  induction l with
  | nil => rfl
  | cons a r ih =>
      simp only [List.map_cons]
      rw [h a (List.mem_cons_self _ _), ih (fun b hb => h b (List.mem_cons_of_mem _ hb))]

/-! ## The claims -/

/-- C5: with two procedures named `foo` in the same schema, one taking a
single `internal` argument and one taking a single `cstring[]` argument,
the linker's support-procedure resolution selects the `internal` overload
for a base type's `receive` role and the `cstring[]` overload for its
`typmod_in` role. -/
theorem claim5_signature_disambiguation
    {π : Type} (dbfuncs : List ((String × String × String) × π))
    (t : DbTypeObj) (fInt fCsa : π)
    (hInt : lookupKey dbfuncs (t.schema, "foo", "internal") = some fInt)
    (hCsa : lookupKey dbfuncs (t.schema, "foo", "cstring[]") = some fCsa) :
    resolveOptFunc dbfuncs t "receive" "foo" = .ok fInt ∧
    resolveOptFunc dbfuncs t "typmod_in" "foo" = .ok fCsa := by
  have hsplit : split_schema_obj "foo" t.schema = (t.schema, "foo") := rfl
  constructor
  · simp [resolveOptFunc, hsplit, optFuncExpectedArg, hInt]
  · simp [resolveOptFunc, hsplit, optFuncExpectedArg, hCsa]

theorem claim5_witness :
    lookupKey [(("s", "foo", "internal"), 1), (("s", "foo", "cstring[]"), 2)]
      (("s" : String), ("foo" : String), ("internal" : String)) = some 1 ∧
    lookupKey [(("s", "foo", "internal"), 1), (("s", "foo", "cstring[]"), 2)]
      (("s" : String), ("foo" : String), ("cstring[]" : String)) = some 2 ∧
    (resolveOptFunc [(("s", "foo", "internal"), 1), (("s", "foo", "cstring[]"), 2)]
       { schema := "s", name := "t", kind := .base } "receive" "foo" = .ok 1 ∧
     resolveOptFunc [(("s", "foo", "internal"), 1), (("s", "foo", "cstring[]"), 2)]
       { schema := "s", name := "t", kind := .base } "typmod_in" "foo" = .ok 2) :=
  ⟨by decide, by decide,
   claim5_signature_disambiguation
     [(("s", "foo", "internal"), 1), (("s", "foo", "cstring[]"), 2)]
     { schema := "s", name := "t", kind := .base } 1 2 (by decide) (by decide)⟩

theorem schScanIn_subset :
    ∀ (ds self s : List (String × Schema)) (gs : List SqlGroup),
      schScanIn self ds = .ok (s, gs) → ∀ p ∈ s, p ∈ self := by
  intro ds
  induction ds with
  | nil =>
      intro self s gs h p hp
      simp only [schScanIn, Except.ok.injEq, Prod.mk.injEq] at h
      exact h.1 ▸ hp
  | cons a rest ih =>
      intro self s gs h p hp
      obtain ⟨sch, insch⟩ := a
      cases hl : lookupKey self sch with
      | some dbsch =>
          cases hrec : schScanIn self rest with
          | error e => simp [schScanIn, hl, hrec] at h
          | ok pr =>
              obtain ⟨s0, gs0⟩ := pr
              simp only [schScanIn, hl, hrec, Except.ok.injEq, Prod.mk.injEq] at h
              exact ih self s0 gs0 hrec p (h.1 ▸ hp)
      | none =>
          cases ho : insch.oldname with
          | some old =>
              cases hlo : lookupKey self old with
              | some olds =>
                  cases hrec : schScanIn (removeKey self old) rest with
                  | error e => simp [schScanIn, hl, ho, hlo, hrec] at h
                  | ok pr =>
                      obtain ⟨s0, gs0⟩ := pr
                      simp only [schScanIn, hl, ho, hlo, hrec, Except.ok.injEq,
                        Prod.mk.injEq] at h
                      exact mem_of_mem_removeKey
                        (ih (removeKey self old) s0 gs0 hrec p (h.1 ▸ hp))
              | none => simp [schScanIn, hl, ho, hlo] at h
          | none =>
              by_cases hpc : insch.name = "pg_catalog"
              · simp only [schScanIn, hl, ho, if_pos hpc] at h
                exact ih self s gs h p hp
              · cases hrec : schScanIn self rest with
                | error e => simp [schScanIn, hl, ho, if_neg hpc, hrec] at h
                | ok pr =>
                    obtain ⟨s0, gs0⟩ := pr
                    simp only [schScanIn, hl, ho, if_neg hpc, hrec, Except.ok.injEq,
                      Prod.mk.injEq] at h
                    exact ih self s0 gs0 hrec p (h.1 ▸ hp)

/-- C9: schema reconciliation never drops `public` or `pg_catalog`: a
schema with one of these names present in current but absent from desired
is not marked dropped by `diff_map`, and `_drop` never emits a drop
statement for `public`. -/
theorem claim9_protected_schemas
    (cur des cur2 : List (String × Schema)) (out : List SqlGroup)
    (h : SchemaDict.diff_map cur des = .ok (cur2, out))
    (hfresh : ∀ p ∈ cur, (p : String × Schema).2.dropped = none) :
    ((∀ t, ("public", t) ∈ cur2 → t.dropped = none) ∧
     (∀ t, ("pg_catalog", t) ∈ cur2 → t.dropped = none)) ∧
    (∀ st : List (String × Schema), (∀ p ∈ st, (p : String × Schema).2.name = p.1) →
      ∀ s ∈ flats (SchemaDict._drop st), s ≠ Sql.drop "SCHEMA" "public") := by
  constructor
  · cases hscan : schScanIn cur des with
    | error e => simp [SchemaDict.diff_map, hscan] at h
    | ok pr =>
        obtain ⟨s0, gs0⟩ := pr
        simp only [SchemaDict.diff_map, hscan, Except.ok.injEq, Prod.mk.injEq] at h
        obtain ⟨h1, _⟩ := h
        constructor
        · intro t ht
          rw [← h1] at ht
          obtain ⟨p, hp, hfp⟩ := List.mem_map.mp ht
          have hkey : p.1 = "public" := by
            by_cases hc : p.1 ≠ "public" ∧ p.1 ≠ "pg_catalog" ∧ hasKey des p.1 = false
            · rw [if_pos hc] at hfp; exact (congrArg Prod.fst hfp)
            · rw [if_neg hc] at hfp; exact (congrArg Prod.fst hfp)
          have hun : (if p.1 ≠ "public" ∧ p.1 ≠ "pg_catalog" ∧ hasKey des p.1 = false
              then (p.1, { p.2 with dropped := some true }) else p) = p := by
            rw [if_neg]
            intro hc
            exact hc.1 hkey
          rw [hun] at hfp
          have : t = p.2 := (congrArg Prod.snd hfp).symm
          rw [this]
          exact hfresh p (schScanIn_subset des cur s0 gs0 hscan p hp)
        · intro t ht
          rw [← h1] at ht
          obtain ⟨p, hp, hfp⟩ := List.mem_map.mp ht
          have hkey : p.1 = "pg_catalog" := by
            by_cases hc : p.1 ≠ "public" ∧ p.1 ≠ "pg_catalog" ∧ hasKey des p.1 = false
            · rw [if_pos hc] at hfp; exact (congrArg Prod.fst hfp)
            · rw [if_neg hc] at hfp; exact (congrArg Prod.fst hfp)
          have hun : (if p.1 ≠ "public" ∧ p.1 ≠ "pg_catalog" ∧ hasKey des p.1 = false
              then (p.1, { p.2 with dropped := some true }) else p) = p := by
            rw [if_neg]
            intro hc
            exact hc.2.1 hkey
          rw [hun] at hfp
          have : t = p.2 := (congrArg Prod.snd hfp).symm
          rw [this]
          exact hfresh p (schScanIn_subset des cur s0 gs0 hscan p hp)
  · intro st
    induction st with
    | nil => intro _ s hs; simp [SchemaDict._drop, flats, flatList] at hs
    | cons p rest ih =>
        intro hname s hs
        by_cases hc : p.1 ≠ "public" ∧ p.2.dropped.isSome
        · simp only [SchemaDict._drop, List.filterMap_cons, if_pos hc] at hs
          rw [flats_cons] at hs
          rcases List.mem_append.mp hs with hm | hm
          · simp only [flat, Schema.drop, dropStmts, flatList] at hm
            simp only [List.mem_append, List.mem_singleton, List.not_mem_nil,
              or_false] at hm
            rw [hm]
            intro heq
            injection heq with _ hn
            exact hc.1 (by rw [← hname p (List.mem_cons_self _ _), hn])
          · exact ih (fun q hq => hname q (List.mem_cons_of_mem _ hq)) s hm
        · simp only [SchemaDict._drop, List.filterMap_cons, if_neg hc] at hs
          exact ih (fun q hq => hname q (List.mem_cons_of_mem _ hq)) s hs

theorem claim9_witness :
    ∃ cur2 out,
      SchemaDict.diff_map [("public", { name := "public" }),
        ("pg_catalog", { name := "pg_catalog" }), ("s1", { name := "s1" })] [] =
        .ok (cur2, out) ∧
      ((∀ t, ("public", t) ∈ cur2 → t.dropped = none) ∧
       (∀ t, ("pg_catalog", t) ∈ cur2 → t.dropped = none)) := by
  refine ⟨[("public", { name := "public" }), ("pg_catalog", { name := "pg_catalog" }),
    ("s1", { name := "s1", dropped := some true })], [], rfl, ?_⟩
  exact (claim9_protected_schemas
    [("public", { name := "public" }), ("pg_catalog", { name := "pg_catalog" }),
      ("s1", { name := "s1" })] []
    [("public", { name := "public" }), ("pg_catalog", { name := "pg_catalog" }),
      ("s1", { name := "s1", dropped := some true })] [] rfl
    (by intro p hp; fin_cases hp <;> rfl)).1

theorem langScanIn_mem_preserved :
    ∀ (ds self s : List (String × Language)) (gs : List SqlGroup)
      (k : String) (l : Language),
      langScanIn self ds = .ok (s, gs) → (k, l) ∈ self →
      (∀ p ∈ ds, (p : String × Language).2.oldname ≠ some k) → (k, l) ∈ s := by
  intro ds
  induction ds with
  | nil =>
      intro self s gs k l h hm _
      simp only [langScanIn, Except.ok.injEq, Prod.mk.injEq] at h
      exact h.1 ▸ hm
  | cons a rest ih =>
      intro self s gs k l h hm hold
      obtain ⟨lng, inlng⟩ := a
      have holdTail : ∀ p ∈ rest, (p : String × Language).2.oldname ≠ some k :=
        fun p hp => hold p (List.mem_cons_of_mem _ hp)
      cases hl : lookupKey self lng with
      | some dblng =>
          by_cases hext : inlng.ext
          · simp only [langScanIn, hl, if_pos hext] at h
            exact ih self s gs k l h hm holdTail
          · cases hrec : langScanIn self rest with
            | error e => simp [langScanIn, hl, if_neg hext, hrec] at h
            | ok pr =>
                obtain ⟨s0, gs0⟩ := pr
                simp only [langScanIn, hl, if_neg hext, hrec, Except.ok.injEq,
                  Prod.mk.injEq] at h
                exact h.1 ▸ ih self s0 gs0 k l hrec hm holdTail
      | none =>
          cases ho : inlng.oldname with
          | some old =>
              cases hlo : lookupKey self old with
              | some oldl =>
                  cases hrec : langScanIn (removeKey self old) rest with
                  | error e => simp [langScanIn, hl, ho, hlo, hrec] at h
                  | ok pr =>
                      obtain ⟨s0, gs0⟩ := pr
                      simp only [langScanIn, hl, ho, hlo, hrec, Except.ok.injEq,
                        Prod.mk.injEq] at h
                      have hne : k ≠ old := by
                        intro hk
                        exact hold (lng, inlng) (List.mem_cons_self _ _)
                          (by rw [ho, hk])
                      exact h.1 ▸ ih (removeKey self old) s0 gs0 k l hrec
                        (mem_removeKey_of_ne hm hne) holdTail
              | none => simp [langScanIn, hl, ho, hlo] at h
          | none =>
              cases hrec : langScanIn self rest with
              | error e => simp [langScanIn, hl, ho, hrec] at h
              | ok pr =>
                  obtain ⟨s0, gs0⟩ := pr
                  simp only [langScanIn, hl, ho, hrec, Except.ok.injEq,
                    Prod.mk.injEq] at h
                  exact h.1 ▸ ih self s0 gs0 k l hrec hm holdTail

theorem langDrop_mem :
    ∀ (st : List (String × Language)) (k : String) (l : Language),
      (k, l) ∈ st → l.dropped.isSome = true →
      Sql.drop "LANGUAGE" l.name ∈ flats (LanguageDict._drop st) := by
  intro st
  induction st with
  | nil => intro k l hm; cases hm
  | cons p rest ih =>
      intro k l hm hd
      rcases List.mem_cons.mp hm with hm | hm
      · have hp2 : p.2 = l := congrArg Prod.snd hm.symm
        simp only [LanguageDict._drop, List.foldr_cons, hp2, hd, if_pos]
        rw [flats_cons]
        simp [flat, flatList, Language.drop, dropStmts]
      · by_cases hpd : p.2.dropped.isSome
        · simp only [LanguageDict._drop, List.foldr_cons, if_pos hpd]
          rw [flats_cons]
          exact List.mem_append_right _ (ih k l hm hd)
        · simp only [LanguageDict._drop, List.foldr_cons, if_neg hpd]
          exact ih k l hm hd

/-- C10: when the catalog version is at least 9.0 (90000), a current
`plpgsql` language absent from the desired collection (and not consumed by
a rename) is left unmarked by `diff_map`, and never receives a drop
statement from `_drop`; for an older version it is marked and dropped like
any other language. -/
theorem claim10_plpgsql
    (version : Nat) (cur des cur2 : List (String × Language))
    (out : List SqlGroup) (l : Language)
    (h : LanguageDict.diff_map version cur des = .ok (cur2, out))
    (hmem : ("plpgsql", l) ∈ cur) (hname : l.name = "plpgsql")
    (hfresh : l.dropped = none) (habs : hasKey des "plpgsql" = false)
    (hnoren : ∀ p ∈ des, (p : String × Language).2.oldname ≠ some "plpgsql") :
    (90000 ≤ version →
      ("plpgsql", l) ∈ cur2 ∧ l.dropped = none ∧
      (∀ st : List (String × Language),
        (∀ p ∈ st, (p : String × Language).2.name = p.1) →
        (∀ t : Language, ("plpgsql", t) ∈ st → t.dropped = none) →
        ∀ s ∈ flats (LanguageDict._drop st), s ≠ Sql.drop "LANGUAGE" "plpgsql")) ∧
    (version < 90000 →
      ("plpgsql", { l with dropped := some true }) ∈ cur2 ∧
      Sql.drop "LANGUAGE" l.name ∈ flats (LanguageDict._drop cur2)) := by
  cases hscan : langScanIn cur des with
  | error e => simp [LanguageDict.diff_map, hscan] at h
  | ok pr =>
      obtain ⟨s0, gs0⟩ := pr
      simp only [LanguageDict.diff_map, hscan, Except.ok.injEq, Prod.mk.injEq] at h
      obtain ⟨h1, _⟩ := h
      have hs0 : ("plpgsql", l) ∈ s0 :=
        langScanIn_mem_preserved des cur s0 gs0 "plpgsql" l hscan hmem hnoren
      constructor
      · intro hver
        refine ⟨?_, hfresh, ?_⟩
        · rw [← h1]
          have himg :
              (if hasKey des (("plpgsql", l) : String × Language).1 then ("plpgsql", l)
               else if 90000 ≤ version ∧ (("plpgsql", l) : String × Language).2.name = "plpgsql"
               then ("plpgsql", l)
               else (("plpgsql", l).1, { ("plpgsql", l).2 with dropped := some true }))
              = ("plpgsql", l) := by
            simp only [habs, if_false, Bool.false_eq_true]
            rw [if_pos ⟨hver, hname⟩]
          have := List.mem_map_of_mem (fun p : String × Language =>
            if hasKey des p.1 then p
            else if 90000 ≤ version ∧ p.2.name = "plpgsql" then p
            else (p.1, { p.2 with dropped := some true })) hs0
          rw [langMark]
          simpa [himg] using this
        · intro st hnames hunmarked s hs
          induction st with
          | nil => simp [LanguageDict._drop, flats, flatList] at hs
          | cons p rest ih =>
              by_cases hpd : p.2.dropped.isSome
              · simp only [LanguageDict._drop, List.foldr_cons, if_pos hpd] at hs
                rw [flats_cons] at hs
                rcases List.mem_append.mp hs with hm | hm
                · simp only [flat, Language.drop, dropStmts, flatList,
                    List.append_nil] at hm
                  have hseq := List.mem_singleton.mp hm
                  rw [hseq]
                  intro heq
                  injection heq with _ hn
                  have hkey := hnames p (List.mem_cons_self _ _)
                  have : p.1 = "plpgsql" := by rw [← hkey, hn]
                  have hnone := hunmarked p.2 (by
                    have : p = ("plpgsql", p.2) := by
                      apply Prod.ext
                      · exact this
                      · rfl
                    rw [← this]
                    exact List.mem_cons_self _ _)
                  rw [hnone] at hpd
                  simp [Option.isSome] at hpd
                · exact ih (fun q hq => hnames q (List.mem_cons_of_mem _ hq))
                    (fun t ht => hunmarked t (List.mem_cons_of_mem _ ht)) hm
              · simp only [LanguageDict._drop, List.foldr_cons, if_neg hpd] at hs
                exact ih (fun q hq => hnames q (List.mem_cons_of_mem _ hq))
                  (fun t ht => hunmarked t (List.mem_cons_of_mem _ ht)) hs
      · intro hver
        have hnotge : ¬ (90000 ≤ version ∧ l.name = "plpgsql") := by
          intro hc
          exact absurd hc.1 (Nat.not_le.mpr hver)
        have hmm := List.mem_map_of_mem (fun p : String × Language =>
          if hasKey des p.1 then p
          else if 90000 ≤ version ∧ p.2.name = "plpgsql" then p
          else (p.1, { p.2 with dropped := some true })) hs0
        simp only [habs, hnotge, Bool.false_eq_true, if_false] at hmm
        have hmem2 : ("plpgsql", { l with dropped := some true }) ∈ cur2 := by
          rw [← h1, langMark]
          exact hmm
        refine ⟨hmem2, ?_⟩
        exact langDrop_mem cur2 "plpgsql" { l with dropped := some true } hmem2 rfl

theorem claim10_witness :
    ∃ cur2a outa cur2b outb,
      LanguageDict.diff_map 90100 [("plpgsql", { name := "plpgsql" })] [] =
        .ok (cur2a, outa) ∧
      ("plpgsql", ({ name := "plpgsql" } : Language)) ∈ cur2a ∧
      LanguageDict.diff_map 80400 [("plpgsql", { name := "plpgsql" })] [] =
        .ok (cur2b, outb) ∧
      Sql.drop "LANGUAGE" "plpgsql" ∈ flats (LanguageDict._drop cur2b) := by
  refine ⟨[("plpgsql", { name := "plpgsql" })], [],
    [("plpgsql", { name := "plpgsql", dropped := some true })], [], rfl, ?_, rfl, ?_⟩
  · exact ((claim10_plpgsql 90100 [("plpgsql", { name := "plpgsql" })] []
      [("plpgsql", { name := "plpgsql" })] [] { name := "plpgsql" } rfl
      (List.mem_singleton.mpr rfl) rfl rfl rfl (by intro p hp; cases hp)).1
      (by norm_num)).1
  · exact ((claim10_plpgsql 80400 [("plpgsql", { name := "plpgsql" })] []
      [("plpgsql", { name := "plpgsql", dropped := some true })] []
      { name := "plpgsql" } rfl (List.mem_singleton.mpr rfl) rfl rfl rfl
      (by intro p hp; cases hp)).2 (by norm_num)).2

/-- C4 counterexample: a `type` entry with none of the three discriminating
sub-keys does not become a Domain — the classification code has no fallback
branch, so its entity variable is never assigned and ingestion fails with
an `UnboundLocalError`. -/
theorem claim4_counterexample :
    typeFromMapEntry "type t" [("description", "d")] =
      .error (.unboundLocal "dtype") := rfl

/-- C4 (amended): a `type`-prefixed entry with `labels` becomes an Enum,
with `attributes` (and no `labels`) a Composite, with `input` (and neither
of the former) a BaseType; with none of the three discriminating sub-keys a
non-empty entry raises `UnboundLocalError` (domains are declared under the
separate `domain` prefix instead). -/
theorem claim4_amended_classification
    (key nm : String) (entry : List (String × String))
    (hpart : partitionSpace key = ("type", true, nm)) :
    (hasKey entry "labels" = true →
       typeFromMapEntry key entry = .ok (some .enumE)) ∧
    (hasKey entry "labels" = false → hasKey entry "attributes" = true →
       typeFromMapEntry key entry = .ok (some .compositeE)) ∧
    (hasKey entry "labels" = false → hasKey entry "attributes" = false →
       hasKey entry "input" = true →
       typeFromMapEntry key entry = .ok (some .baseE)) ∧
    (hasKey entry "labels" = false → hasKey entry "attributes" = false →
       hasKey entry "input" = false → entry.isEmpty = false →
       typeFromMapEntry key entry = .error (.unboundLocal "dtype")) := by
  refine ⟨?_, ?_, ?_, ?_⟩
  · intro hl
    simp [typeFromMapEntry, hpart, hl]
  · intro hl ha
    simp [typeFromMapEntry, hpart, hl, ha]
  · intro hl ha hi
    simp [typeFromMapEntry, hpart, hl, ha, hi]
  · intro hl ha hi hne
    simp [typeFromMapEntry, hpart, hl, ha, hi, hne]

theorem claim4_witness :
    partitionSpace "type t" = ("type", true, "t") ∧
    (typeFromMapEntry "type t" [("labels", "x")] = .ok (some .enumE) ∧
     typeFromMapEntry "type t" [("attributes", "x")] = .ok (some .compositeE) ∧
     typeFromMapEntry "type t" [("input", "x")] = .ok (some .baseE)) := by
  refine ⟨by decide, ?_, ?_, ?_⟩
  · exact (claim4_amended_classification "type t" "t" [("labels", "x")]
      (by decide)).1 (by decide)
  · exact (claim4_amended_classification "type t" "t" [("attributes", "x")]
      (by decide)).2.1 (by decide) (by decide)
  · exact (claim4_amended_classification "type t" "t" [("input", "x")]
      (by decide)).2.2.1 (by decide) (by decide) (by decide)

/-- C6 counterexample: an empty language body is not an error — ingestion
silently yields a bare language carrying only its name. -/
theorem claim6_counterexample :
    langFromMapEntry "language mylang" [] = .ok { name := "mylang" } := rfl

/-- C6 (amended): an empty domain body and an empty function body each
fail with an error naming the entity, but an empty language body is
silently accepted as a bare language. -/
theorem claim6_amended_empty_bodies
    (dkey dnm fsch fnm fargs lkey lnm : String)
    (hdp : partitionSpace dkey = ("domain", true, dnm))
    (hlp : partitionSpace lkey = ("language", true, lnm)) :
    (typeFromMapEntry dkey [] =
       .error (.valueError ("Domain \x27" ++ dkey ++ "\x27 has no specification")) ∧
     strMentions ("Domain \x27" ++ dkey ++ "\x27 has no specification") dkey = true) ∧
    (procEntryBuild false fsch fnm fargs [] =
       .error (.valueError ("Function \x27" ++ fnm ++ "\x27 has no specification")) ∧
     strMentions ("Function \x27" ++ fnm ++ "\x27 has no specification") fnm = true) ∧
    langFromMapEntry lkey [] = .ok { name := lnm } := by
  refine ⟨⟨?_, ?_⟩, ⟨rfl, ?_⟩, ?_⟩
  · simp [typeFromMapEntry, hdp]
  · have h := strMentions_of_parts "Domain \x27" "" "\x27 has no specification" dkey
    simpa using h
  · have h := strMentions_of_parts "Function \x27" "" "\x27 has no specification" fnm
    simpa using h
  · simp [langFromMapEntry, hlp]

theorem claim6_witness :
    partitionSpace "domain d1" = ("domain", true, "d1") ∧
    partitionSpace "language l1" = ("language", true, "l1") ∧
    (typeFromMapEntry "domain d1" [] =
       .error (.valueError ("Domain \x27" ++ "domain d1" ++ "\x27 has no specification")) ∧
     langFromMapEntry "language l1" [] = .ok { name := "l1" }) := by
  refine ⟨by decide, by decide, ?_, ?_⟩
  · exact (claim6_amended_empty_bodies "domain d1" "d1" "s" "f" "" "language l1" "l1"
      (by decide) (by decide)).1.1
  · exact (claim6_amended_empty_bodies "domain d1" "d1" "s" "f" "" "language l1" "l1"
      (by decide) (by decide)).2.2

theorem isEmpty_false_of_hasKey {κ α : Type} [DecidableEq κ]
    {m : List (κ × α)} {k : κ} (h : hasKey m k = true) : m.isEmpty = false := by
  cases m with
  | nil => simp [hasKey, lookupKey] at h
  | cons a r => rfl

/-- C8: for a `Function` built by `ProcDict.from_map`, exactly one of
`source` and `obj_file` must be present: ingestion raises a `ValueError`
when both are given and when neither is given (an entirely empty body
raises the no-specification `ValueError` first), and succeeds when exactly
one is given. -/
theorem claim8_source_xor_objfile
    (schN nm args : String) (entry : List (String × String)) :
    (hasKey entry "source" = true → hasKey entry "obj_file" = true →
       procEntryBuild false schN nm args entry =
         .error (.valueError ("Function \x27" ++ nm ++
           "\x27: either source or obj_file must be specified"))) ∧
    (entry.isEmpty = false → hasKey entry "source" = false →
       hasKey entry "obj_file" = false →
       procEntryBuild false schN nm args entry =
         .error (.valueError ("Function \x27" ++ nm ++
           "\x27: either source or obj_file must be specified"))) ∧
    (entry.isEmpty = true →
       procEntryBuild false schN nm args entry =
         .error (.valueError ("Function \x27" ++ nm ++ "\x27 has no specification"))) ∧
    (hasKey entry "source" = true → hasKey entry "obj_file" = false →
       ∀ e, procEntryBuild false schN nm args entry ≠ .error e) ∧
    (hasKey entry "source" = false → hasKey entry "obj_file" = true →
       ∀ e, procEntryBuild false schN nm args entry ≠ .error e) := by
  refine ⟨?_, ?_, ?_, ?_, ?_⟩
  · intro hs ho
    simp [procEntryBuild, isEmpty_false_of_hasKey hs, hs, ho]
  · intro hne hs ho
    simp [procEntryBuild, hne, hs, ho]
  · intro he
    simp [procEntryBuild, he]
  · intro hs ho e
    simp [procEntryBuild, isEmpty_false_of_hasKey hs, hs, ho]
  · intro hs ho e
    simp [procEntryBuild, isEmpty_false_of_hasKey ho, hs, ho]

theorem claim8_witness :
    (hasKey [(("source", "b")), (("obj_file", "f"))] ("source" : String) = true ∧
     hasKey [(("source", "b")), (("obj_file", "f"))] ("obj_file" : String) = true ∧
     procEntryBuild false "s" "f" "" [("source", "b"), ("obj_file", "f")] =
       .error (.valueError ("Function \x27" ++ "f" ++
         "\x27: either source or obj_file must be specified"))) ∧
    (∀ e, procEntryBuild false "s" "f" "" [("source", "b")] ≠ .error e) := by
  refine ⟨⟨by decide, by decide, ?_⟩, ?_⟩
  · exact (claim8_source_xor_objfile "s" "f" ""
      [("source", "b"), ("obj_file", "f")]).1 (by decide) (by decide)
  · exact (claim8_source_xor_objfile "s" "f" "" [("source", "b")]).2.2.2.1
      (by decide) (by decide)

theorem strMentions_five_a (p1 s1 p2 s2 p3 : String) :
    strMentions (p1 ++ s1 ++ p2 ++ s2 ++ p3) s1 = true := by
  have h : (p1 ++ s1 ++ p2 ++ s2 ++ p3).data
      = p1.data ++ (s1.data ++ (p2.data ++ (s2.data ++ p3.data))) := by
    simp [data_append, List.append_assoc]
  rw [strMentions, h]
  exact isInfixList_parts _ _ _

theorem strMentions_five_b (p1 s1 p2 s2 p3 : String) :
    strMentions (p1 ++ s1 ++ p2 ++ s2 ++ p3) s2 = true := by
  have h : (p1 ++ s1 ++ p2 ++ s2 ++ p3).data
      = (p1.data ++ (s1.data ++ p2.data)) ++ (s2.data ++ p3.data) := by
    simp [data_append, List.append_assoc]
  rw [strMentions, h]
  exact isInfixList_parts _ _ _

/-- C7 counterexample: `TypeDict.diff_map` does not wrap the old-key lookup
of a rename in a `try`/`except`, so an unresolvable `oldname` raises the
raw `KeyError`, which carries the old key only and does not report the new
name (`B`). -/
theorem claim7_counterexample :
    TypeDict.diff_map [(("s", "T"), { schema := "s", name := "T", kind := .domain })]
      [(("s", "B"),
        { schema := "s", name := "B", kind := .domain, oldname := some "zzz" })] =
      .error (.keyError "(s, zzz)") ∧
    strMentions "(s, zzz)" "B" = false := ⟨rfl, by decide⟩

/-- C7 (amended): when a desired entity's `oldname` does not resolve,
`LanguageDict.diff_map` and `UserMappingDict.diff_map` (like the other
foreign-object and schema collections) fail with a message reporting both
the old and the new name; `TypeDict.diff_map`, however, propagates the raw
`KeyError` carrying only the old key. -/
theorem claim7_amended_rename_errors
    (version : Nat) (cur : List (String × Language)) (lng old : String)
    (inl : Language) (hox : inl.oldname = some old)
    (hkey : lookupKey cur lng = none) (holdk : lookupKey cur old = none)
    (umcur : List ((String × String × String) × UserMap))
    (fdw srv usr uold : String) (inu : UserMap) (huo : inu.oldname = some uold)
    (hukey : lookupKey umcur (fdw, srv, usr) = none)
    (huold : lookupKey umcur (fdw, srv, uold) = none) :
    (LanguageDict.diff_map version cur [(lng, inl)] =
       .error (.keyErrorMsg (langPrevMsg old inl.name)) ∧
     strMentions (langPrevMsg old inl.name) old = true ∧
     strMentions (langPrevMsg old inl.name) inl.name = true) ∧
    (UserMappingDict.diff_map umcur [((fdw, srv, usr), inu)] =
       .error (.keyErrorMsg ("Previous name \x27" ++ uold ++
         "\x27 for user mapping \x27" ++ inu.name ++ "\x27 not found")) ∧
     strMentions ("Previous name \x27" ++ uold ++ "\x27 for user mapping \x27" ++
       inu.name ++ "\x27 not found") uold = true ∧
     strMentions ("Previous name \x27" ++ uold ++ "\x27 for user mapping \x27" ++
       inu.name ++ "\x27 not found") inu.name = true) := by
  refine ⟨⟨?_, ?_, ?_⟩, ⟨?_, ?_, ?_⟩⟩
  · simp [LanguageDict.diff_map, langScanIn, hkey, hox, holdk]
  · exact strMentions_five_a "Previous name \x27" old "\x27 for language \x27"
      inl.name "\x27 not found"
  · exact strMentions_five_b "Previous name \x27" old "\x27 for language \x27"
      inl.name "\x27 not found"
  · simp [UserMappingDict.diff_map, umScanIn, hukey, huo, huold]
  · exact strMentions_five_a "Previous name \x27" uold "\x27 for user mapping \x27"
      inu.name "\x27 not found"
  · exact strMentions_five_b "Previous name \x27" uold "\x27 for user mapping \x27"
      inu.name "\x27 not found"

theorem claim7_witness :
    (({ name := "newl", oldname := some "ghost" } : Language).oldname = some "ghost" ∧
     lookupKey ([] : List (String × Language)) "newl" = none ∧
     lookupKey ([] : List (String × Language)) "ghost" = none) ∧
    (LanguageDict.diff_map 90100 [] [("newl", { name := "newl", oldname := some "ghost" })] =
       .error (.keyErrorMsg (langPrevMsg "ghost" "newl")) ∧
     strMentions (langPrevMsg "ghost" "newl") "ghost" = true ∧
     strMentions (langPrevMsg "ghost" "newl") "newl" = true) := by
  refine ⟨⟨rfl, rfl, rfl⟩, ?_⟩
  exact (claim7_amended_rename_errors 90100 [] "newl" "ghost"
    { name := "newl", oldname := some "ghost" } rfl rfl rfl
    [] "w" "s" "u" "uold"
    { wrapper := "w", server := "s", name := "u", oldname := some "uold" }
    rfl rfl rfl).1

/-- C2 counterexample: current key `A`, desired entity with `oldname = A`,
`name = B` and a changed attribute (the description).  The output is a
single rename statement and nothing else: no alter statement follows,
because the rename does not re-key the renamed entity into the current
collection, so the alter pass never sees it. -/
theorem claim2_counterexample :
    TypeDict.diff_map
      [(("s", "A"), { schema := "s", name := "A", kind := .domain })]
      [(("s", "B"),
        { schema := "s", name := "B", kind := .domain, oldname := some "A",
          description := some "changed" })] =
      .ok ([], [SqlGroup.s (Sql.rename "DOMAIN" "s.A" "B")]) ∧
    (flats [SqlGroup.s (Sql.rename "DOMAIN" "s.A" "B")]).length = 1 :=
  ⟨rfl, rfl⟩

/-- C2 (amended): given current key `A` and a desired entity with
`oldname = A`, `name = B` and any attribute changes, `TypeDict.diff_map`
and `LanguageDict.diff_map` output exactly one rename statement and no
alter statement — the old key is removed but the new key is never inserted
into current, so the alter pass skips the renamed entity — and key `A` no
longer exists in current afterward.  `ForeignServerDict.diff_map` cannot
rename at all: it deletes the old entry with the bare name instead of its
`(wrapper, name)` key, and the resulting `KeyError` is reported as a failed
rename. -/
theorem claim2_amended_rename_only
    (sch A B : String) (t tin : DbTypeObj) (hAB : A ≠ B)
    (hold : tin.oldname = some A)
    (lA lB : String) (l lin : Language) (hlAB : lA ≠ lB)
    (hlold : lin.oldname = some lA) (version : Nat)
    (w sA sB : String) (sv sin : Server) (hsAB : sA ≠ sB)
    (hsold : sin.oldname = some sA) :
    (TypeDict.diff_map [((sch, A), t)] [((sch, B), tin)] =
       .ok ([], [SqlGroup.s (renameStmt t.objtype t.qualname B)])) ∧
    (LanguageDict.diff_map version [(lA, l)] [(lB, lin)] =
       .ok ([], [SqlGroup.s (renameStmt "LANGUAGE" l.name lin.name)])) ∧
    (ForeignServerDict.diff_map [((w, sA), sv)] [((w, sB), sin)] =
       .error (.keyErrorMsg ("Previous name \x27" ++ sA ++
         "\x27 for dictionary \x27" ++ sin.name ++ "\x27 not found"))) := by
  refine ⟨?_, ?_, ?_⟩
  · have hk : hasKey [((sch, A), t)] (sch, B) = false := by
      simp [hasKey, lookupKey, Prod.mk.injEq, hAB]
    have hl : lookupKey [((sch, A), t)] (sch, A) = some t := by
      simp [lookupKey]
    have hr : removeKey [((sch, A), t)] (sch, A) = [] := by
      simp [removeKey]
    simp [TypeDict.diff_map, typScanIn, typScanDb, hk, hold, hl, hr]
  · have hk : lookupKey [(lA, l)] lB = none := by
      simp [lookupKey, hlAB]
    have hl : lookupKey [(lA, l)] lA = some l := by
      simp [lookupKey]
    have hr : removeKey [(lA, l)] lA = [] := by
      simp [removeKey]
    simp [LanguageDict.diff_map, langScanIn, langMark, hk, hlold, hl, hr]
  · have hk : lookupKey [((w, sA), sv)] (w, sB) = none := by
      simp [lookupKey, Prod.mk.injEq, hsAB]
    have hl : lookupKey [((w, sA), sv)] (w, sA) = some sv := by
      simp [lookupKey]
    simp [ForeignServerDict.diff_map, srvScanIn, hk, hsold, hl]

theorem claim2_witness :
    (("dA" : String) ≠ "dB" ∧ ("lgA" : String) ≠ "lgB" ∧ ("svA" : String) ≠ "svB") ∧
    (TypeDict.diff_map
       [(("s", "dA"), { schema := "s", name := "dA", kind := .enum })]
       [(("s", "dB"),
         { schema := "s", name := "dB", kind := .enum, oldname := some "dA" })] =
       .ok ([], [SqlGroup.s (renameStmt "TYPE" "s.dA" "dB")]) ∧
     LanguageDict.diff_map 90100
       [("lgA", { name := "lgA" })]
       [("lgB", { name := "lgB", oldname := some "lgA" })] =
       .ok ([], [SqlGroup.s (renameStmt "LANGUAGE" "lgA" "lgB")])) := by
  refine ⟨⟨by decide, by decide, by decide⟩, ?_, ?_⟩
  · exact (claim2_amended_rename_only "s" "dA" "dB"
      { schema := "s", name := "dA", kind := .enum }
      { schema := "s", name := "dB", kind := .enum, oldname := some "dA" }
      (by decide) rfl "lgA" "lgB" { name := "lgA" }
      { name := "lgB", oldname := some "lgA" } (by decide) rfl 90100
      "w" "svA" "svB" { wrapper := "w", name := "svA" }
      { wrapper := "w", name := "svB", oldname := some "svA" } (by decide) rfl).1
  · exact (claim2_amended_rename_only "s" "dA" "dB"
      { schema := "s", name := "dA", kind := .enum }
      { schema := "s", name := "dB", kind := .enum, oldname := some "dA" }
      (by decide) rfl "lgA" "lgB" { name := "lgA" }
      { name := "lgB", oldname := some "lgA" } (by decide) rfl 90100
      "w" "svA" "svB" { wrapper := "w", name := "svA" }
      { wrapper := "w", name := "svB", oldname := some "svA" } (by decide) rfl).2.1

/-! ### No-drop lemmas for the deferring collections (claim C1) -/

theorem flat_s (x : Sql) : flat (SqlGroup.s x) = [x] := rfl

theorem flat_nil_g : flat SqlGroup.nil = [] := rfl

theorem flat_l (gs : List SqlGroup) : flat (SqlGroup.l gs) = flats gs := rfl

theorem noDrops_s {x : Sql} (hx : x.isDrop = false) : NoDrops [SqlGroup.s x] := by
  intro s hs
  simp only [flats_cons, flat_s, flats_nil, List.append_nil,
    List.mem_singleton] at hs
  rw [hs]; exact hx

theorem noDrops_wrap {gs : List SqlGroup} (h : NoDrops gs) :
    NoDrops [SqlGroup.l gs] := by
  intro s hs
  simp only [flats_cons, flat_l, flats_nil, List.append_nil] at hs
  exact h s hs

theorem noDrops_nil_g : NoDrops [SqlGroup.nil] := by
  intro s hs
  simp [flats_cons, flat_nil_g, flats_nil] at hs

theorem noDrops_opt_owner_ne (objtype ident : String) (o oc : Option String) :
    NoDrops (match o with
             | some x => if some x ≠ oc then [SqlGroup.s (alterOwnerStmt objtype ident x)]
                         else []
             | none => []) := by
  cases o with
  | none => exact noDrops_nil
  | some x =>
      dsimp only
      split
      · exact noDrops_s rfl
      · exact noDrops_nil

theorem noDrops_opt_owner (objtype ident : String) (o : Option String) :
    NoDrops (match o with
             | some x => [SqlGroup.s (alterOwnerStmt objtype ident x)]
             | none => []) := by
  cases o with
  | none => exact noDrops_nil
  | some x => exact noDrops_s rfl

theorem noDrops_descr (a b : String) (c d : Option String) :
    NoDrops [diff_description a b c d] := by
  unfold diff_description
  split
  · exact noDrops_s rfl
  · exact noDrops_nil_g

theorem langCreate_noDrops (l : Language) : NoDrops (Language.create l) := by
  unfold Language.create
  split
  · exact noDrops_nil
  · refine noDrops_append (noDrops_append (noDrops_s rfl) ?_) ?_
    · exact noDrops_opt_owner "LANGUAGE" l.name l.owner
    · cases l.description with
      | none => exact noDrops_nil
      | some d => exact noDrops_s rfl

theorem langDiffMap_noDrops (a b : Language) : NoDrops (Language.diff_map a b) :=
  genericDiff_noDrops _ _ _ _ _ _ _ _

theorem mapDepCreate_noDrops (l : List (String × String)) :
    NoDrops (l.map (fun rf => SqlGroup.l [SqlGroup.s (Sql.create "FUNCTION" rf.2)])) := by
  induction l with
  | nil => exact noDrops_nil
  | cons a r ih =>
      refine noDrops_cons ?_ ih
      intro s hs
      simp only [flat_l, flats_cons, flat_s, flats_nil, List.append_nil,
        List.mem_singleton] at hs
      rw [hs]; rfl

theorem typCreate_noDrops (t : DbTypeObj) : NoDrops t.create := by
  unfold DbTypeObj.create
  split
  · apply decorate_noDrops
    refine noDrops_append (noDrops_append (noDrops_s rfl) ?_) (noDrops_s rfl)
    exact mapDepCreate_noDrops t.dep_funcs
  · exact decorate_noDrops _ _ _ _ _ _ (noDrops_s rfl)

theorem noDrops_opt_alter (a b : String) (o : Option String) :
    NoDrops (match o with
             | some d => [SqlGroup.s (Sql.alter a b d)]
             | none => []) := by
  cases o with
  | none => exact noDrops_nil
  | some d => exact noDrops_s rfl

theorem optSqlStmts_noDrops (o : Option Sql)
    (ho : ∀ c, o = some c → c.isDrop = false) :
    NoDrops (optSqlStmts o) := by
  cases o with
  | none => exact noDrops_nil
  | some c => exact noDrops_s (ho c rfl)

theorem compDiffStmts_noDrops (qual : String) (a inattr : Attr) :
    NoDrops (compDiffStmts qual a inattr) := by
  unfold compDiffStmts
  refine noDrops_append (noDrops_opt_alter _ _ _) (optSqlStmts_noDrops _ ?_)
  intro c hc
  unfold Attr.diff_map at hc
  dsimp only at hc
  split at hc
  · injection hc with hc; rw [← hc]; rfl
  · cases hc

theorem compAddStmts_noDrops (qual : String) (inattr : Attr) :
    NoDrops (compAddStmts qual inattr) := by
  unfold compAddStmts
  refine noDrops_append (noDrops_s rfl) (optSqlStmts_noDrops _ ?_)
  intro c hc
  unfold Attr.add at hc
  dsimp only at hc
  split at hc
  · injection hc with hc; rw [← hc]; rfl
  · cases hc

theorem compRenCheck_noDrops (sa : List Attr) (num : Nat) (inattr : Attr)
    {gs : List SqlGroup} (h : compRenCheck sa num inattr = .ok gs) :
    NoDrops gs := by
  unfold compRenCheck at h
  split at h
  · split at h
    · split at h
      · injection h with h; rw [← h]; exact noDrops_s rfl
      · cases h
    · cases h
  · injection h with h; rw [← h]; exact noDrops_nil

theorem compAttrHere_noDrops (qual : String) (sa : List Attr)
    (attrnames : List String) (dbattrs num : Nat) (inattr : Attr)
    {gs : List SqlGroup} (h : compAttrHere qual sa attrnames dbattrs num inattr = .ok gs) :
    NoDrops gs := by
  unfold compAttrHere at h
  split at h
  · split at h
    · split at h
      · injection h with h; rw [← h]; exact compDiffStmts_noDrops qual _ inattr
      · split at h
        · injection h with h; rw [← h]; exact noDrops_nil
        · injection h with h; rw [← h]; exact compAddStmts_noDrops qual inattr
    · cases h
  · split at h
    · injection h with h; rw [← h]; exact noDrops_nil
    · injection h with h; rw [← h]; exact compAddStmts_noDrops qual inattr

theorem compAttrLoop_noDrops (qual : String) (sa : List Attr)
    (attrnames : List String) (dbattrs : Nat) :
    ∀ (ins : List Attr) (num : Nat) (gs : List SqlGroup),
      compAttrLoop qual sa attrnames dbattrs num ins = .ok gs → NoDrops gs := by
  intro ins
  induction ins with
  | nil =>
      intro num gs h
      simp only [compAttrLoop, Except.ok.injEq] at h
      rw [← h]; exact noDrops_nil
  | cons inattr rest ih =>
      intro num gs h
      unfold compAttrLoop at h
      cases hren : compRenCheck sa num inattr with
      | error e => rw [hren] at h; cases h
      | ok renStmts =>
          rw [hren] at h
          cases hhere : compAttrHere qual sa attrnames dbattrs num inattr with
          | error e => rw [hhere] at h; cases h
          | ok here =>
              rw [hhere] at h
              cases hrec : compAttrLoop qual sa attrnames dbattrs (num + 1) rest with
              | error e => rw [hrec] at h; cases h
              | ok tl =>
                  rw [hrec] at h
                  injection h with h
                  rw [← h]
                  exact noDrops_append (noDrops_append
                    (compRenCheck_noDrops sa num inattr hren)
                    (compAttrHere_noDrops qual sa attrnames dbattrs num inattr hhere))
                    (ih (num + 1) tl hrec)

theorem compositeDiffMap_noDrops (self intype : DbTypeObj)
    {gs : List SqlGroup} (h : Composite.diff_map self intype = .ok gs) :
    NoDrops gs := by
  unfold Composite.diff_map at h
  cases hin : intype.attributes with
  | none => rw [hin] at h; cases h
  | some inattrs =>
      rw [hin] at h
      cases hsa : self.attributes with
      | none => rw [hsa] at h; cases h
      | some sa =>
          rw [hsa] at h
          dsimp only at h
          cases hloop : compAttrLoop self.qualname sa
              ((sa.filter (fun a => a.dropped = none)).map Attr.name)
              ((sa.filter (fun a => a.dropped = none)).map Attr.name).length
              0 inattrs with
          | error e => rw [hloop] at h; cases h
          | ok body =>
              rw [hloop] at h
              injection h with h
              rw [← h]
              refine noDrops_append (noDrops_append
                (compAttrLoop_noDrops _ _ _ _ inattrs 0 body hloop) ?_) ?_
              · cases intype.owner with
                | none => exact noDrops_nil
                | some o =>
                    dsimp only
                    split
                    · exact noDrops_s rfl
                    · exact noDrops_nil
              · exact noDrops_descr _ _ _ _

theorem typDiffMap_noDrops (self intype : DbTypeObj)
    {gs : List SqlGroup} (h : DbTypeObj.diff_map self intype = .ok gs) :
    NoDrops gs := by
  unfold DbTypeObj.diff_map at h
  split at h
  · exact compositeDiffMap_noDrops self intype h
  · injection h with h
    rw [← h]
    exact genericDiff_noDrops _ _ _ _ _ _ _ _

theorem diffPriv_noDrops (a b : String) (c d : Option String) :
    NoDrops (diff_privileges a b c d) := by
  unfold diff_privileges
  split
  · exact noDrops_s rfl
  · exact noDrops_nil

theorem funcCreate_noDrops (p : Proc) (bt : Bool) :
    NoDrops (Function.create p bt) := by
  unfold Function.create
  split
  · exact noDrops_nil
  · apply decorate_noDrops
    refine noDrops_append ?_ (noDrops_s rfl)
    cases p.dependent_table with
    | none => exact noDrops_nil
    | some tq => exact noDrops_wrap (noDrops_s rfl)

theorem aggCreate_noDrops (p : Proc) : NoDrops (Aggregate.create p) :=
  decorate_noDrops _ _ _ _ _ _ (noDrops_s rfl)

theorem funcDiffMap_noDrops (f infn : Proc) : NoDrops (Function.diff_map f infn) := by
  unfold Function.diff_map
  refine noDrops_append (noDrops_append (noDrops_append ?_ ?_) ?_) ?_
  · split
    · split
      · exact noDrops_wrap (funcCreate_noDrops f false)
      · exact noDrops_nil
    · exact noDrops_nil
  · exact noDrops_opt_owner_ne "FUNCTION" f.identifier infn.owner f.owner
  · split
    · split
      · exact noDrops_s rfl
      · exact noDrops_s rfl
    · split
      · exact noDrops_s rfl
      · exact noDrops_nil
  · refine noDrops_cons ?_ (noDrops_descr _ _ _ _)
    intro s hs
    rw [flat_l] at hs
    exact diffPriv_noDrops _ _ _ _ s hs

theorem procDiffMap_noDrops (f infn : Proc) : NoDrops (Proc.diff_map f infn) := by
  unfold Proc.diff_map
  split
  · exact genericDiff_noDrops _ _ _ _ _ _ _ _
  · exact funcDiffMap_noDrops f infn

theorem dowoDiffMap_noDrops (a b : String) (c d e f g h : Option String)
    (i : Option (List String)) (j : Option (List String)) :
    NoDrops (DbObjectWithOptions.diff_map a b c d e f g h i j) := by
  unfold DbObjectWithOptions.diff_map
  refine noDrops_append (genericDiff_noDrops _ _ _ _ _ _ _ _) ?_
  split
  · exact noDrops_s rfl
  · exact noDrops_nil

theorem fdwCreate_noDrops (w : Fdw) : NoDrops (Fdw.create w) :=
  decorate_noDrops _ _ _ _ _ _ (noDrops_s rfl)

theorem fdwDiffMap_noDrops (a b : Fdw) : NoDrops (Fdw.diff_map a b) := by
  unfold Fdw.diff_map
  refine noDrops_append (noDrops_append (dowoDiffMap_noDrops _ _ _ _ _ _ _ _ _ _) ?_)
    (noDrops_descr _ _ _ _)
  exact noDrops_opt_owner_ne "FOREIGN DATA WRAPPER" a.name b.owner a.owner

theorem srvCreate_noDrops (s : Server) : NoDrops (Server.create s) :=
  decorate_noDrops _ _ _ _ _ _ (noDrops_s rfl)

theorem srvDiffMap_noDrops (a b : Server) : NoDrops (Server.diff_map a b) := by
  unfold Server.diff_map
  refine noDrops_append (noDrops_append (dowoDiffMap_noDrops _ _ _ _ _ _ _ _ _ _) ?_)
    (noDrops_descr _ _ _ _)
  exact noDrops_opt_owner_ne "SERVER" a.name b.owner a.owner

theorem schCreate_noDrops (s : Schema) : NoDrops (Schema.create s) :=
  decorate_noDrops _ _ _ _ _ _ (noDrops_s rfl)

theorem schDiffMap_noDrops (a b : Schema) : NoDrops (Schema.diff_map a b) :=
  genericDiff_noDrops _ _ _ _ _ _ _ _

theorem typScanIn_noDrops :
    ∀ (ds self s : List ((String × String) × DbTypeObj)) (gs : List SqlGroup),
      typScanIn self ds = .ok (s, gs) → NoDrops gs := by
  intro ds
  induction ds with
  | nil =>
      intro self s gs h
      simp only [typScanIn, Except.ok.injEq, Prod.mk.injEq] at h
      rw [← h.2]; exact noDrops_nil
  | cons a rest ih =>
      intro self s gs h
      obtain ⟨⟨sch, typ⟩, intype⟩ := a
      by_cases hk : hasKey self (sch, typ)
      · simp only [typScanIn, hk, if_true] at h
        exact ih self s gs h
      · cases ho : intype.oldname with
        | none =>
            cases hrec : typScanIn self rest with
            | error e => simp [typScanIn, hk, ho, hrec] at h
            | ok pr =>
                obtain ⟨s0, gs0⟩ := pr
                simp only [typScanIn, hk, ho, hrec, Except.ok.injEq,
                  Prod.mk.injEq, Bool.false_eq_true, if_false] at h
                rw [← h.2]
                refine noDrops_cons ?_ (ih self s0 gs0 hrec)
                intro s1 hs1
                rw [flat_l] at hs1
                exact typCreate_noDrops intype s1 hs1
        | some old =>
            cases hlo : lookupKey self (sch, old) with
            | none => simp [typScanIn, hk, ho, hlo] at h
            | some t =>
                cases hrec : typScanIn (removeKey self (sch, old)) rest with
                | error e => simp [typScanIn, hk, ho, hlo, hrec] at h
                | ok pr =>
                    obtain ⟨s0, gs0⟩ := pr
                    simp only [typScanIn, hk, ho, hlo, hrec, Except.ok.injEq,
                      Prod.mk.injEq, Bool.false_eq_true, if_false] at h
                    rw [← h.2]
                    exact noDrops_cons
                      (by intro s1 hs1
                          rw [flat_s] at hs1
                          rw [List.mem_singleton.mp hs1]
                          rfl)
                      (ih (removeKey self (sch, old)) s0 gs0 hrec)

theorem typScanDb_ok :
    ∀ (cur : List ((String × String) × DbTypeObj))
      (des : List ((String × String) × DbTypeObj))
      (s : List ((String × String) × DbTypeObj)) (gs : List SqlGroup),
      typScanDb des cur = .ok (s, gs) →
      NoDrops gs ∧
      (∀ (k : String × String) (t : DbTypeObj), (k, t) ∈ s →
        lookupKey des k = none → t.dropped.isSome = true) := by
  intro cur
  induction cur with
  | nil =>
      intro des s gs h
      simp only [typScanDb, Except.ok.injEq, Prod.mk.injEq] at h
      constructor
      · rw [← h.2]; exact noDrops_nil
      · intro k t hm; rw [← h.1] at hm; cases hm
  | cons a rest ih =>
      intro des s gs h
      obtain ⟨k0, t0⟩ := a
      cases hl : lookupKey des k0 with
      | none =>
          cases hrec : typScanDb des rest with
          | error e => simp [typScanDb, hl, hrec] at h
          | ok pr =>
              obtain ⟨r, gs0⟩ := pr
              simp only [typScanDb, hl, hrec, Except.ok.injEq, Prod.mk.injEq] at h
              obtain ⟨ihn, ihm⟩ := ih des r gs0 hrec
              constructor
              · rw [← h.2]; exact ihn
              · intro k t hm hlk
                rw [← h.1] at hm
                rcases List.mem_cons.mp hm with hm | hm
                · have : t = { t0 with dropped := some false } :=
                    (congrArg Prod.snd hm)
                  rw [this]; rfl
                · exact ihm k t hm hlk
      | some it =>
          cases hdm : DbTypeObj.diff_map t0 it with
          | error e => simp [typScanDb, hl, hdm] at h
          | ok ds =>
              cases hrec : typScanDb des rest with
              | error e => simp [typScanDb, hl, hdm, hrec] at h
              | ok pr =>
                  obtain ⟨r, gs0⟩ := pr
                  simp only [typScanDb, hl, hdm, hrec, Except.ok.injEq,
                    Prod.mk.injEq] at h
                  obtain ⟨ihn, ihm⟩ := ih des r gs0 hrec
                  constructor
                  · rw [← h.2]
                    refine noDrops_cons ?_ ihn
                    intro s1 hs1
                    rw [flat_l] at hs1
                    exact typDiffMap_noDrops t0 it hdm s1 hs1
                  · intro k t hm hlk
                    rw [← h.1] at hm
                    rcases List.mem_cons.mp hm with hm | hm
                    · exfalso
                      have hk : k = k0 := congrArg Prod.fst hm
                      rw [hk, hl] at hlk
                      cases hlk
                    · exact ihm k t hm hlk

theorem typDrop_mem :
    ∀ (st : List ((String × String) × DbTypeObj)) (k : String × String)
      (t : DbTypeObj), (k, t) ∈ st → t.dropped.isSome = true →
      t.dropStmt ∈ flats (TypeDict._drop st) := by
  intro st
  induction st with
  | nil => intro k t hm _; cases hm
  | cons p rest ih =>
      intro k t hm hd
      obtain ⟨k0, t0⟩ := p
      rcases List.mem_cons.mp hm with hm | hm
      · have ht0 : t0 = t := congrArg Prod.snd hm.symm
        rw [ht0]
        simp only [TypeDict._drop, hd, if_true]
        rw [flats_cons, drop_flat]
        exact List.mem_append_left _ (List.mem_singleton.mpr rfl)
      · by_cases hd0 : t0.dropped.isSome
        · simp only [TypeDict._drop, hd0, if_true]
          rw [flats_cons]
          refine List.mem_append_right _ ?_
          rw [flats_append]
          exact List.mem_append_right _ (ih k t hm hd)
        · simp only [TypeDict._drop, hd0, Bool.false_eq_true, if_false]
          exact ih k t hm hd

theorem langScanIn_noDrops :
    ∀ (ds self s : List (String × Language)) (gs : List SqlGroup),
      langScanIn self ds = .ok (s, gs) → NoDrops gs := by
  intro ds
  induction ds with
  | nil =>
      intro self s gs h
      simp only [langScanIn, Except.ok.injEq, Prod.mk.injEq] at h
      rw [← h.2]; exact noDrops_nil
  | cons a rest ih =>
      intro self s gs h
      obtain ⟨lng, inlng⟩ := a
      cases hl : lookupKey self lng with
      | some dblng =>
          by_cases hext : inlng.ext
          · simp only [langScanIn, hl, if_pos hext] at h
            exact ih self s gs h
          · cases hrec : langScanIn self rest with
            | error e => simp [langScanIn, hl, hext, hrec] at h
            | ok pr =>
                obtain ⟨s0, gs0⟩ := pr
                simp only [langScanIn, hl, hext, hrec, Except.ok.injEq,
                  Prod.mk.injEq, Bool.false_eq_true, if_false] at h
                rw [← h.2]
                refine noDrops_cons ?_ (ih self s0 gs0 hrec)
                intro s1 hs1
                rw [flat_l] at hs1
                exact langDiffMap_noDrops dblng inlng s1 hs1
      | none =>
          cases ho : inlng.oldname with
          | some old =>
              cases hlo : lookupKey self old with
              | some oldl =>
                  cases hrec : langScanIn (removeKey self old) rest with
                  | error e => simp [langScanIn, hl, ho, hlo, hrec] at h
                  | ok pr =>
                      obtain ⟨s0, gs0⟩ := pr
                      simp only [langScanIn, hl, ho, hlo, hrec, Except.ok.injEq,
                        Prod.mk.injEq] at h
                      rw [← h.2]
                      refine noDrops_cons ?_ (ih (removeKey self old) s0 gs0 hrec)
                      intro s1 hs1
                      rw [flat_s] at hs1
                      rw [List.mem_singleton.mp hs1]; rfl
              | none => simp [langScanIn, hl, ho, hlo] at h
          | none =>
              cases hrec : langScanIn self rest with
              | error e => simp [langScanIn, hl, ho, hrec] at h
              | ok pr =>
                  obtain ⟨s0, gs0⟩ := pr
                  simp only [langScanIn, hl, ho, hrec, Except.ok.injEq,
                    Prod.mk.injEq] at h
                  rw [← h.2]
                  refine noDrops_cons ?_ (ih self s0 gs0 hrec)
                  intro s1 hs1
                  rw [flat_l] at hs1
                  exact langCreate_noDrops inlng s1 hs1

theorem procScanFuncs_noDrops :
    ∀ (ds self : List ((String × String × String) × Proc)) (gs : List SqlGroup)
      (c : Bool), procScanFuncs self ds = .ok (gs, c) → NoDrops gs := by
  intro ds
  induction ds with
  | nil =>
      intro self gs c h
      simp only [procScanFuncs, Except.ok.injEq, Prod.mk.injEq] at h
      rw [← h.1]; exact noDrops_nil
  | cons a rest ih =>
      intro self gs c h
      obtain ⟨k, infn⟩ := a
      by_cases hagg : infn.isAgg
      · simp only [procScanFuncs, hagg, if_true] at h
        exact ih self gs c h
      · cases hl : lookupKey self k with
        | none =>
            cases ho : infn.oldname with
            | none =>
                cases hrec : procScanFuncs self rest with
                | error e => simp [procScanFuncs, hagg, hl, ho, hrec] at h
                | ok pr =>
                    obtain ⟨gs0, c0⟩ := pr
                    simp only [procScanFuncs, hagg, hl, ho, hrec, Except.ok.injEq,
                      Prod.mk.injEq, Bool.false_eq_true, if_false] at h
                    rw [← h.1]
                    refine noDrops_cons ?_ (ih self gs0 c0 hrec)
                    intro s1 hs1
                    rw [flat_l] at hs1
                    exact funcCreate_noDrops infn false s1 hs1
            | some o => simp [procScanFuncs, hagg, hl, ho] at h
        | some f =>
            cases hrec : procScanFuncs self rest with
            | error e => simp [procScanFuncs, hagg, hl, hrec] at h
            | ok pr =>
                obtain ⟨gs0, c0⟩ := pr
                simp only [procScanFuncs, hagg, hl, hrec, Except.ok.injEq,
                  Prod.mk.injEq, Bool.false_eq_true, if_false] at h
                rw [← h.1]
                refine noDrops_cons ?_ (ih self gs0 c0 hrec)
                intro s1 hs1
                rw [flat_l] at hs1
                exact procDiffMap_noDrops f infn s1 hs1

theorem procScanAggs_noDrops :
    ∀ (ds self : List ((String × String × String) × Proc)) (gs : List SqlGroup),
      procScanAggs self ds = .ok gs → NoDrops gs := by
  intro ds
  induction ds with
  | nil =>
      intro self gs h
      simp only [procScanAggs, Except.ok.injEq] at h
      rw [← h]; exact noDrops_nil
  | cons a rest ih =>
      intro self gs h
      obtain ⟨k, infn⟩ := a
      by_cases hagg : infn.isAgg
      · cases hl : lookupKey self k with
        | none =>
            cases ho : infn.oldname with
            | none =>
                cases hrec : procScanAggs self rest with
                | error e => simp [procScanAggs, hagg, hl, ho, hrec] at h
                | ok gs0 =>
                    simp only [procScanAggs, hagg, hl, ho, hrec, Except.ok.injEq,
                      Bool.not_true, Bool.false_eq_true, if_false] at h
                    rw [← h]
                    refine noDrops_cons ?_ (ih self gs0 hrec)
                    intro s1 hs1
                    rw [flat_l] at hs1
                    exact aggCreate_noDrops infn s1 hs1
            | some o => simp [procScanAggs, hagg, hl, ho] at h
        | some f =>
            cases hrec : procScanAggs self rest with
            | error e => simp [procScanAggs, hagg, hl, hrec] at h
            | ok gs0 =>
                simp only [procScanAggs, hagg, hl, hrec, Except.ok.injEq,
                  Bool.not_true, Bool.false_eq_true, if_false] at h
                rw [← h]
                refine noDrops_cons ?_ (ih self gs0 hrec)
                intro s1 hs1
                rw [flat_l] at hs1
                exact procDiffMap_noDrops f infn s1 hs1
      · simp only [procScanAggs, hagg, Bool.not_false, if_true] at h
        exact ih self gs h

theorem fdwScanIn_noDrops :
    ∀ (ds self s : List (String × Fdw)) (gs : List SqlGroup),
      fdwScanIn self ds = .ok (s, gs) → NoDrops gs := by
  intro ds
  induction ds with
  | nil =>
      intro self s gs h
      simp only [fdwScanIn, Except.ok.injEq, Prod.mk.injEq] at h
      rw [← h.2]; exact noDrops_nil
  | cons a rest ih =>
      intro self s gs h
      obtain ⟨fdw, infdw⟩ := a
      cases hl : lookupKey self fdw with
      | some dbw =>
          cases hrec : fdwScanIn self rest with
          | error e => simp [fdwScanIn, hl, hrec] at h
          | ok pr =>
              obtain ⟨s0, gs0⟩ := pr
              simp only [fdwScanIn, hl, hrec, Except.ok.injEq, Prod.mk.injEq] at h
              rw [← h.2]
              refine noDrops_cons ?_ (ih self s0 gs0 hrec)
              intro s1 hs1
              rw [flat_l] at hs1
              exact fdwDiffMap_noDrops dbw infdw s1 hs1
      | none =>
          cases ho : infdw.oldname with
          | some old =>
              cases hlo : lookupKey self old with
              | some oldw =>
                  cases hrec : fdwScanIn (removeKey self old) rest with
                  | error e => simp [fdwScanIn, hl, ho, hlo, hrec] at h
                  | ok pr =>
                      obtain ⟨s0, gs0⟩ := pr
                      simp only [fdwScanIn, hl, ho, hlo, hrec, Except.ok.injEq,
                        Prod.mk.injEq] at h
                      rw [← h.2]
                      refine noDrops_cons ?_ (ih (removeKey self old) s0 gs0 hrec)
                      intro s1 hs1
                      rw [flat_s] at hs1
                      rw [List.mem_singleton.mp hs1]; rfl
              | none => simp [fdwScanIn, hl, ho, hlo] at h
          | none =>
              cases hrec : fdwScanIn self rest with
              | error e => simp [fdwScanIn, hl, ho, hrec] at h
              | ok pr =>
                  obtain ⟨s0, gs0⟩ := pr
                  simp only [fdwScanIn, hl, ho, hrec, Except.ok.injEq,
                    Prod.mk.injEq] at h
                  rw [← h.2]
                  refine noDrops_cons ?_ (ih self s0 gs0 hrec)
                  intro s1 hs1
                  rw [flat_l] at hs1
                  exact fdwCreate_noDrops infdw s1 hs1

theorem srvScanIn_noDrops :
    ∀ (ds self s : List ((String × String) × Server)) (gs : List SqlGroup),
      srvScanIn self ds = .ok (s, gs) → NoDrops gs := by
  intro ds
  induction ds with
  | nil =>
      intro self s gs h
      simp only [srvScanIn, Except.ok.injEq, Prod.mk.injEq] at h
      rw [← h.2]; exact noDrops_nil
  | cons a rest ih =>
      intro self s gs h
      obtain ⟨⟨fdw, srv⟩, insrv⟩ := a
      cases hl : lookupKey self (fdw, srv) with
      | some dbs =>
          cases hrec : srvScanIn self rest with
          | error e => simp [srvScanIn, hl, hrec] at h
          | ok pr =>
              obtain ⟨s0, gs0⟩ := pr
              simp only [srvScanIn, hl, hrec, Except.ok.injEq, Prod.mk.injEq] at h
              rw [← h.2]
              refine noDrops_cons ?_ (ih self s0 gs0 hrec)
              intro s1 hs1
              rw [flat_l] at hs1
              exact srvDiffMap_noDrops dbs insrv s1 hs1
      | none =>
          cases ho : insrv.oldname with
          | some old =>
              cases hlo : lookupKey self (fdw, old) with
              | some oldsv => simp [srvScanIn, hl, ho, hlo] at h
              | none => simp [srvScanIn, hl, ho, hlo] at h
          | none =>
              cases hrec : srvScanIn self rest with
              | error e => simp [srvScanIn, hl, ho, hrec] at h
              | ok pr =>
                  obtain ⟨s0, gs0⟩ := pr
                  simp only [srvScanIn, hl, ho, hrec, Except.ok.injEq,
                    Prod.mk.injEq] at h
                  rw [← h.2]
                  refine noDrops_cons ?_ (ih self s0 gs0 hrec)
                  intro s1 hs1
                  rw [flat_l] at hs1
                  exact srvCreate_noDrops insrv s1 hs1

theorem schScanIn_noDrops :
    ∀ (ds self s : List (String × Schema)) (gs : List SqlGroup),
      schScanIn self ds = .ok (s, gs) → NoDrops gs := by
  intro ds
  induction ds with
  | nil =>
      intro self s gs h
      simp only [schScanIn, Except.ok.injEq, Prod.mk.injEq] at h
      rw [← h.2]; exact noDrops_nil
  | cons a rest ih =>
      intro self s gs h
      obtain ⟨sch, insch⟩ := a
      cases hl : lookupKey self sch with
      | some dbsch =>
          cases hrec : schScanIn self rest with
          | error e => simp [schScanIn, hl, hrec] at h
          | ok pr =>
              obtain ⟨s0, gs0⟩ := pr
              simp only [schScanIn, hl, hrec, Except.ok.injEq, Prod.mk.injEq] at h
              rw [← h.2]
              refine noDrops_cons ?_ (ih self s0 gs0 hrec)
              intro s1 hs1
              rw [flat_l] at hs1
              exact schDiffMap_noDrops dbsch insch s1 hs1
      | none =>
          cases ho : insch.oldname with
          | some old =>
              cases hlo : lookupKey self old with
              | some olds =>
                  cases hrec : schScanIn (removeKey self old) rest with
                  | error e => simp [schScanIn, hl, ho, hlo, hrec] at h
                  | ok pr =>
                      obtain ⟨s0, gs0⟩ := pr
                      simp only [schScanIn, hl, ho, hlo, hrec, Except.ok.injEq,
                        Prod.mk.injEq] at h
                      rw [← h.2]
                      refine noDrops_cons ?_ (ih (removeKey self old) s0 gs0 hrec)
                      intro s1 hs1
                      rw [flat_s] at hs1
                      rw [List.mem_singleton.mp hs1]; rfl
              | none => simp [schScanIn, hl, ho, hlo] at h
          | none =>
              by_cases hpc : insch.name = "pg_catalog"
              · simp only [schScanIn, hl, ho, if_pos hpc] at h
                exact ih self s gs h
              · cases hrec : schScanIn self rest with
                | error e => simp [schScanIn, hl, ho, hpc, hrec] at h
                | ok pr =>
                    obtain ⟨s0, gs0⟩ := pr
                    simp only [schScanIn, hl, ho, if_neg hpc, hrec, Except.ok.injEq,
                      Prod.mk.injEq] at h
                    rw [← h.2]
                    refine noDrops_cons ?_ (ih self s0 gs0 hrec)
                    intro s1 hs1
                    rw [flat_l] at hs1
                    exact schCreate_noDrops insch s1 hs1

theorem umDrops_mem (des : List ((String × String × String) × UserMap)) :
    ∀ (s : List ((String × String × String) × UserMap))
      (k : String × String × String) (u : UserMap),
      (k, u) ∈ s → hasKey des k = false →
      Sql.drop "USER MAPPING" u.identifier ∈
        flats (s.filterMap (fun p =>
          if hasKey des p.1 then none else some (SqlGroup.l p.2.drop))) := by
  intro s
  induction s with
  | nil => intro k u hm _; cases hm
  | cons p rest ih =>
      intro k u hm hk
      obtain ⟨k0, u0⟩ := p
      rcases List.mem_cons.mp hm with hm | hm
      · injection hm with hk0 hu0
        subst hk0; subst hu0
        simp only [List.filterMap_cons, hk, Bool.false_eq_true, if_false]
        rw [flats_cons, flat_l]
        refine List.mem_append_left _ ?_
        simp [UserMap.drop, dropStmts, flats_cons, flat_s, flats_nil]
      · by_cases hk0 : hasKey des k0
        · simp only [List.filterMap_cons, hk0, if_true]
          exact ih k u hm hk
        · simp only [List.filterMap_cons, hk0, Bool.false_eq_true, if_false]
          rw [flats_cons]
          exact List.mem_append_right _ (ih k u hm hk)

theorem ftbDrop_mem (des : List ((String × String) × FTable)) :
    ∀ (s : List ((String × String) × FTable)) (k : String × String) (t : FTable),
      (k, t) ∈ s → lookupKey des k = none →
      FTable.drop t ∈ flats (ftbScanDb des s) := by
  intro s
  induction s with
  | nil => intro k t hm _; cases hm
  | cons p rest ih =>
      intro k t hm hlk
      obtain ⟨k0, t0⟩ := p
      rcases List.mem_cons.mp hm with hm | hm
      · injection hm with hk0 ht0
        subst hk0; subst ht0
        simp only [ftbScanDb, hlk]
        rw [flats_cons, flat_s]
        exact List.mem_append_left _ (List.mem_singleton.mpr rfl)
      · cases hl0 : lookupKey des k0 with
        | none =>
            simp only [ftbScanDb, hl0]
            rw [flats_cons]
            exact List.mem_append_right _ (ih k t hm hlk)
        | some it =>
            simp only [ftbScanDb, hl0]
            rw [flats_cons]
            exact List.mem_append_right _ (ih k t hm hlk)

/-- C1 counterexample: `UserMappingDict.diff_map` emits the drop statement
for a current user mapping absent from the desired map directly — no
`dropped` marker, no deferred pass. -/
theorem claim1_counterexample :
    UserMappingDict.diff_map
      [(("w", "s", "u"), { wrapper := "w", server := "s", name := "u" })] [] =
      .ok ([(("w", "s", "u"), { wrapper := "w", server := "s", name := "u" })],
        [SqlGroup.l (UserMap.drop { wrapper := "w", server := "s", name := "u" })]) ∧
    (flats [SqlGroup.l (UserMap.drop
      { wrapper := "w", server := "s", name := "u" })]).any Sql.isDrop = true :=
  ⟨rfl, rfl⟩

/-- C1 (amended): the type, procedure, language, foreign-data-wrapper,
foreign-server and schema reconciliations never emit a drop statement from
`diff_map`; an entity surviving in current but absent from desired (types
shown here) only has its `dropped` marker set and its drop statement is
produced by the deferred `_drop` pass.  User mappings and foreign tables,
however, have their drop statements emitted directly by `diff_map`. -/
theorem claim1_amended_deferred_drops :
    (∀ cur des cur2 out, TypeDict.diff_map cur des = .ok (cur2, out) →
       NoDrops out ∧
       (∀ k t, (k, t) ∈ cur2 → lookupKey des k = none →
         t.dropped.isSome = true)) ∧
    (∀ (st : List ((String × String) × DbTypeObj)) k t, (k, t) ∈ st →
       t.dropped.isSome = true → t.dropStmt ∈ flats (TypeDict._drop st)) ∧
    (∀ version cur des cur2 out,
       LanguageDict.diff_map version cur des = .ok (cur2, out) → NoDrops out) ∧
    (∀ cur des cur2 out, ProcDict.diff_map cur des = .ok (cur2, out) →
       NoDrops out) ∧
    (∀ cur des cur2 out, ForeignDataWrapperDict.diff_map cur des = .ok (cur2, out) →
       NoDrops out) ∧
    (∀ cur des cur2 out, ForeignServerDict.diff_map cur des = .ok (cur2, out) →
       NoDrops out) ∧
    (∀ cur des cur2 out, SchemaDict.diff_map cur des = .ok (cur2, out) →
       NoDrops out) ∧
    (∀ cur des cur2 out k u, UserMappingDict.diff_map cur des = .ok (cur2, out) →
       (k, u) ∈ cur2 → hasKey des k = false →
       Sql.drop "USER MAPPING" u.identifier ∈ flats out) ∧
    (∀ cur des cur2 out k t, ForeignTableDict.diff_map cur des = .ok (cur2, out) →
       (k, t) ∈ cur2 → lookupKey des k = none →
       FTable.drop t ∈ flats out) := by
  refine ⟨?_, ?_, ?_, ?_, ?_, ?_, ?_, ?_, ?_⟩
  · intro cur des cur2 out h
    cases hscan : typScanIn cur des with
    | error e => simp [TypeDict.diff_map, hscan] at h
    | ok pr =>
        obtain ⟨s1, gs1⟩ := pr
        cases hdb : typScanDb des s1 with
        | error e => simp [TypeDict.diff_map, hscan, hdb] at h
        | ok pr2 =>
            obtain ⟨s2, gs2⟩ := pr2
            simp only [TypeDict.diff_map, hscan, hdb, Except.ok.injEq,
              Prod.mk.injEq] at h
            obtain ⟨hdbn, hdbm⟩ := typScanDb_ok s1 des s2 gs2 hdb
            constructor
            · rw [← h.2]
              exact noDrops_append (typScanIn_noDrops des cur s1 gs1 hscan) hdbn
            · intro k t hm hlk
              rw [← h.1] at hm
              exact hdbm k t hm hlk
  · exact typDrop_mem
  · intro version cur des cur2 out h
    cases hscan : langScanIn cur des with
    | error e => simp [LanguageDict.diff_map, hscan] at h
    | ok pr =>
        obtain ⟨s0, gs0⟩ := pr
        simp only [LanguageDict.diff_map, hscan, Except.ok.injEq,
          Prod.mk.injEq] at h
        rw [← h.2]
        exact langScanIn_noDrops des cur s0 gs0 hscan
  · intro cur des cur2 out h
    cases hf : procScanFuncs cur des with
    | error e => simp [ProcDict.diff_map, hf] at h
    | ok pr =>
        obtain ⟨gs1, created⟩ := pr
        cases ha : procScanAggs cur des with
        | error e => simp [ProcDict.diff_map, hf, ha] at h
        | ok gs2 =>
            simp only [ProcDict.diff_map, hf, ha, Except.ok.injEq,
              Prod.mk.injEq] at h
            rw [← h.2]
            have hbase : NoDrops (gs1 ++ gs2) :=
              noDrops_append (procScanFuncs_noDrops des cur gs1 created hf)
                (procScanAggs_noDrops des cur gs2 ha)
            by_cases hc : created = true
            · rw [if_pos hc]
              exact noDrops_cons (by intro s hs; rw [flat_s] at hs
                                     rw [List.mem_singleton.mp hs]; rfl) hbase
            · rw [if_neg hc]
              exact hbase
  · intro cur des cur2 out h
    cases hscan : fdwScanIn cur des with
    | error e => simp [ForeignDataWrapperDict.diff_map, hscan] at h
    | ok pr =>
        obtain ⟨s0, gs0⟩ := pr
        simp only [ForeignDataWrapperDict.diff_map, hscan, Except.ok.injEq,
          Prod.mk.injEq] at h
        rw [← h.2]
        exact fdwScanIn_noDrops des cur s0 gs0 hscan
  · intro cur des cur2 out h
    cases hscan : srvScanIn cur des with
    | error e => simp [ForeignServerDict.diff_map, hscan] at h
    | ok pr =>
        obtain ⟨s0, gs0⟩ := pr
        simp only [ForeignServerDict.diff_map, hscan, Except.ok.injEq,
          Prod.mk.injEq] at h
        rw [← h.2]
        exact srvScanIn_noDrops des cur s0 gs0 hscan
  · intro cur des cur2 out h
    cases hscan : schScanIn cur des with
    | error e => simp [SchemaDict.diff_map, hscan] at h
    | ok pr =>
        obtain ⟨s0, gs0⟩ := pr
        simp only [SchemaDict.diff_map, hscan, Except.ok.injEq,
          Prod.mk.injEq] at h
        rw [← h.2]
        exact schScanIn_noDrops des cur s0 gs0 hscan
  · intro cur des cur2 out k u h hm hk
    cases hscan : umScanIn cur des with
    | error e => simp [UserMappingDict.diff_map, hscan] at h
    | ok pr =>
        obtain ⟨s0, gs0⟩ := pr
        simp only [UserMappingDict.diff_map, hscan, Except.ok.injEq,
          Prod.mk.injEq] at h
        rw [← h.1] at hm
        rw [← h.2, flats_append]
        exact List.mem_append_right _ (umDrops_mem des s0 k u hm hk)
  · intro cur des cur2 out k t h hm hlk
    cases hscan : ftbScanIn cur des with
    | error e => simp [ForeignTableDict.diff_map, hscan] at h
    | ok pr =>
        obtain ⟨s0, gs0⟩ := pr
        simp only [ForeignTableDict.diff_map, hscan, Except.ok.injEq,
          Prod.mk.injEq] at h
        rw [← h.1] at hm
        rw [← h.2, flats_append]
        exact List.mem_append_right _ (ftbDrop_mem des s0 k t hm hlk)

theorem claim1_witness :
    ∃ cur2 out,
      TypeDict.diff_map
        [(("s", "e1"), { schema := "s", name := "e1", kind := .enum })] [] =
        .ok (cur2, out) ∧ NoDrops out ∧
      (∀ k t, (k, t) ∈ cur2 →
        lookupKey ([] : List ((String × String) × DbTypeObj)) k = none →
        t.dropped.isSome = true) ∧
      DbTypeObj.dropStmt
          { schema := "s", name := "e1", kind := .enum, dropped := some false } ∈
        flats (TypeDict._drop cur2) := by
  refine ⟨[(("s", "e1"),
    { schema := "s", name := "e1", kind := .enum, dropped := some false })], [],
    rfl, ?_, ?_, ?_⟩
  · exact (claim1_amended_deferred_drops.1
      [(("s", "e1"), { schema := "s", name := "e1", kind := .enum })] []
      [(("s", "e1"),
        { schema := "s", name := "e1", kind := .enum, dropped := some false })]
      [] rfl).1
  · exact (claim1_amended_deferred_drops.1
      [(("s", "e1"), { schema := "s", name := "e1", kind := .enum })] []
      [(("s", "e1"),
        { schema := "s", name := "e1", kind := .enum, dropped := some false })]
      [] rfl).2
  · exact claim1_amended_deferred_drops.2.1
      [(("s", "e1"),
        { schema := "s", name := "e1", kind := .enum, dropped := some false })]
      ("s", "e1")
      { schema := "s", name := "e1", kind := .enum, dropped := some false }
      (List.mem_singleton.mpr rfl) rfl

/-! ### Idempotence lemmas (claim C3) -/

theorem not_mem_keys_of_lookupKey_none {κ α : Type} [DecidableEq κ]
    {m : List (κ × α)} {k : κ} (h : lookupKey m k = none) :
    k ∉ m.map Prod.fst := by
  intro hk
  obtain ⟨p, hp, hfst⟩ := List.mem_map.mp hk
  have : (k, p.2) ∈ m := by
    have : p = (k, p.2) := by
      apply Prod.ext
      · exact hfst
      · rfl
    rw [← this]; exact hp
  exact not_mem_of_lookupKey_none h p.2 this

theorem dictInsert_nodup {m : List (String × String)} {kv : String × String}
    (h : NoDupKeys m) : NoDupKeys (dictInsert m kv) := by
  unfold dictInsert
  by_cases hk : hasKey m kv.1
  · rw [if_pos hk]
    unfold NoDupKeys
    have : (m.map (fun p => if p.1 = kv.1 then (p.1, kv.2) else p)).map Prod.fst
        = m.map Prod.fst := by
      rw [List.map_map]
      apply List.map_congr_left
      intro p _
      by_cases hp : p.1 = kv.1 <;> simp [hp]
    rw [this]; exact h
  · rw [if_neg hk]
    unfold NoDupKeys
    rw [List.map_append]
    apply List.Nodup.append h (by simp)
    intro a ha hb
    simp only [List.map_cons, List.map_nil, List.mem_singleton] at hb
    rw [hb] at ha
    have hlk : lookupKey m kv.1 = none := by
      unfold hasKey at hk
      cases hlk : lookupKey m kv.1 with
      | none => rfl
      | some v => rw [hlk] at hk; simp at hk
    exact not_mem_keys_of_lookupKey_none hlk ha

theorem dictOfPairs_nodup (l : List (String × String)) :
    NoDupKeys (dictOfPairs l) := by
  unfold dictOfPairs
  suffices hgen : ∀ acc : List (String × String), NoDupKeys acc →
      NoDupKeys (l.foldl dictInsert acc) by
    exact hgen [] (by simp [NoDupKeys])
  induction l with
  | nil => intro acc h; exact h
  | cons a r ih =>
      intro acc h
      exact ih (dictInsert acc a) (dictInsert_nodup h)

theorem diff_options_self (o : Option (List String)) :
    diff_options o (o.getD []) = none := by
  unfold diff_options
  have hnd := dictOfPairs_nodup ((o.getD []).map splitEq)
  have h1 : (dictOfPairs ((o.getD []).map splitEq)).filterMap
      (fun kv => match lookupKey (dictOfPairs ((o.getD []).map splitEq)) kv.1 with
        | none => some (kv.1 ++ " \x27" ++ kv.2 ++ "\x27")
        | some ov => if kv.2 ≠ ov
            then some ("SET " ++ kv.1 ++ " \x27" ++ kv.2 ++ "\x27")
            else none) = [] := by
    rw [List.filterMap_eq_nil]
    intro kv hkv
    have hlk : lookupKey (dictOfPairs ((o.getD []).map splitEq)) kv.1 = some kv.2 := by
      have : (kv.1, kv.2) ∈ dictOfPairs ((o.getD []).map splitEq) := by
        have : kv = (kv.1, kv.2) := rfl
        rw [← this]; exact hkv
      exact lookupKey_eq_of_mem hnd this
    rw [hlk]
    simp
  have h2 : (dictOfPairs ((o.getD []).map splitEq)).filterMap
      (fun kv => if hasKey (dictOfPairs ((o.getD []).map splitEq)) kv.1
          then none else some ("DROP " ++ kv.1)) = [] := by
    rw [List.filterMap_eq_nil]
    intro kv hkv
    have hlk : lookupKey (dictOfPairs ((o.getD []).map splitEq)) kv.1 = some kv.2 := by
      have : (kv.1, kv.2) ∈ dictOfPairs ((o.getD []).map splitEq) := by
        have : kv = (kv.1, kv.2) := rfl
        rw [← this]; exact hkv
      exact lookupKey_eq_of_mem hnd this
    have : hasKey (dictOfPairs ((o.getD []).map splitEq)) kv.1 = true := by
      unfold hasKey; rw [hlk]; rfl
    rw [this]
    simp
  dsimp only
  rw [h1, h2]
  rfl

/-- A freshly-ingested attribute: no rename request, no drop marker. -/
def attrFresh (a : Attr) : Prop := a.oldname = none ∧ a.dropped = none

theorem compDiffStmts_self (qual : String) (a : Attr) :
    compDiffStmts qual a a = [] := by
  unfold compDiffStmts Attr.diff_map optSqlStmts
  simp

theorem compAttrLoop_self (qual : String) (sa : List Attr)
    (hfresh : ∀ a ∈ sa, attrFresh a) :
    ∀ (l : List Attr) (num : Nat),
      (∀ i : Nat, l[i]? = sa[num + i]?) → num + l.length = sa.length →
      compAttrLoop qual sa ((sa.filter (fun a => a.dropped = none)).map Attr.name)
        ((sa.filter (fun a => a.dropped = none)).map Attr.name).length num l =
        .ok [] := by
  have hfilter : sa.filter (fun a => a.dropped = none) = sa := by
    rw [List.filter_eq_self]
    intro a ha
    simp [(hfresh a ha).2]
  intro l
  induction l with
  | nil => intro num _ _; rfl
  | cons inattr rest ih =>
      intro num hidx hlen
      have h0 : sa[num]? = some inattr := by
        have h := hidx 0
        simp only [List.getElem?_cons_zero, Nat.add_zero] at h
        exact h.symm
      have hmem : inattr ∈ sa := List.getElem?_mem h0
      have hren : compRenCheck sa num inattr = .ok [] := by
        unfold compRenCheck
        rw [(hfresh inattr hmem).1]
      have hlt : num <
          ((sa.filter (fun a => a.dropped = none)).map Attr.name).length := by
        rw [hfilter, List.length_map]
        simp only [List.length_cons] at hlen
        omega
      have hhere : compAttrHere qual sa
          ((sa.filter (fun a => a.dropped = none)).map Attr.name)
          ((sa.filter (fun a => a.dropped = none)).map Attr.name).length
          num inattr = .ok [] := by
        unfold compAttrHere
        rw [if_pos hlt, h0]
        dsimp only
        rw [if_pos rfl, compDiffStmts_self]
      have hrec : compAttrLoop qual sa
          ((sa.filter (fun a => a.dropped = none)).map Attr.name)
          ((sa.filter (fun a => a.dropped = none)).map Attr.name).length
          (num + 1) rest = .ok [] := by
        refine ih (num + 1) ?_ ?_
        · intro i
          have h := hidx (i + 1)
          simp only [List.getElem?_cons_succ] at h
          rw [h]
          congr 1
          omega
        · simp only [List.length_cons] at hlen
          omega
      unfold compAttrLoop
      rw [hren, hhere, hrec]
      rfl

theorem compositeDiffMap_self (t : DbTypeObj) (atts : List Attr)
    (hatt : t.attributes = some atts) (hfresh : ∀ a ∈ atts, attrFresh a) :
    Composite.diff_map t t = .ok [diff_description t.objtype t.qualname
      t.description t.description] := by
  unfold Composite.diff_map
  rw [hatt]
  dsimp only
  have hloop := compAttrLoop_self t.qualname atts hfresh atts 0
    (by intro i; rw [Nat.zero_add]) (by rw [Nat.zero_add])
  rw [hloop]
  have howner : (match t.owner with
      | some o => if some o ≠ t.owner
          then [SqlGroup.s (alterOwnerStmt "TYPE" t.qualname o)]
          else []
      | none => ([] : List SqlGroup)) = [] := by
    cases t.owner with
    | none => rfl
    | some o => simp
  rw [howner]
  rfl

theorem typDiffMap_self (t : DbTypeObj)
    (hsel : t.kind = .composite →
      ∃ atts, t.attributes = some atts ∧ ∀ a ∈ atts, attrFresh a) :
    ∃ ds, DbTypeObj.diff_map t t = .ok ds ∧ flats ds = [] := by
  unfold DbTypeObj.diff_map
  cases hk : t.kind with
  | composite =>
      obtain ⟨atts, hatt, hfresh⟩ := hsel hk
      refine ⟨_, compositeDiffMap_self t atts hatt hfresh, ?_⟩
      rw [flats_cons, flats_nil, List.append_nil]
      unfold diff_description
      rw [if_neg (by simp)]
      rfl
  | domain =>
      exact ⟨_, rfl, genericDiff_self _ _ _ _ _⟩
  | enum =>
      exact ⟨_, rfl, genericDiff_self _ _ _ _ _⟩
  | base =>
      exact ⟨_, rfl, genericDiff_self _ _ _ _ _⟩

theorem dowoDiffMap_self (a b : String) (c d e : Option String)
    (o : Option (List String)) :
    flats (DbObjectWithOptions.diff_map a b c c d d e e o o) = [] := by
  unfold DbObjectWithOptions.diff_map
  rw [flats_append, genericDiff_self, diff_options_self]
  rfl

theorem ownerSelf_nil (objtype ident : String) (o : Option String) :
    (match o with
     | some x => if some x ≠ o then [SqlGroup.s (alterOwnerStmt objtype ident x)]
                 else []
     | none => ([] : List SqlGroup)) = [] := by
  cases o with
  | none => rfl
  | some x => simp

theorem descrSelf_nil (objtype ident : String) (d : Option String) :
    flats [diff_description objtype ident d d] = [] := by
  unfold diff_description
  rw [if_neg (by simp)]
  rfl

theorem fdwDiffMap_self (w : Fdw) : flats (Fdw.diff_map w w) = [] := by
  unfold Fdw.diff_map
  rw [flats_append, flats_append, dowoDiffMap_self, ownerSelf_nil, descrSelf_nil]
  rfl

theorem srvDiffMap_self (s : Server) : flats (Server.diff_map s s) = [] := by
  unfold Server.diff_map
  rw [flats_append, flats_append, dowoDiffMap_self, ownerSelf_nil, descrSelf_nil]
  rfl

theorem umDiffMap_self (u : UserMap) : flats (UserMap.diff_map u u) = [] := by
  unfold UserMap.diff_map
  exact dowoDiffMap_self _ _ _ _ _ _

theorem tblDiffMap_self (t : FTable) : flats (Table.diff_map t t) = [] := by
  unfold Table.diff_map
  rw [flats_append, genericDiff_self, if_neg (by simp)]
  rfl

theorem ftbDiffMap_self (t : FTable) : flats (FTable.diff_map t t) = [] := by
  unfold FTable.diff_map
  rw [flats_append, flats_append, flats_append, tblDiffMap_self,
    diff_options_self, ownerSelf_nil, descrSelf_nil]
  rfl

theorem schDiffMap_self (s : Schema) : flats (Schema.diff_map s s) = [] := by
  unfold Schema.diff_map
  exact genericDiff_self _ _ _ _ _

theorem langDiffMap_self (l : Language) : flats (Language.diff_map l l) = [] := by
  unfold Language.diff_map
  exact genericDiff_self _ _ _ _ _

theorem funcDiffMap_self (f : Proc) (hleak : f.leakproof ≠ some true) :
    Function.diff_map f f = [SqlGroup.l [], SqlGroup.nil] := by
  unfold Function.diff_map
  have h1 : (match f.source, f.source with
      | some s, some s2 => if s ≠ s2
          then [SqlGroup.l (Function.create f false)] else []
      | _, _ => ([] : List SqlGroup)) = [] := by
    cases f.source with
    | none => rfl
    | some s => simp
  have h2 : (match f.owner with
      | some o => if some o ≠ f.owner
          then [SqlGroup.s (alterOwnerStmt "FUNCTION" f.identifier o)]
          else []
      | none => ([] : List SqlGroup)) = [] := ownerSelf_nil _ _ _
  have h3 : (if f.leakproof = some true then
        if f.leakproof = some true then
          [SqlGroup.s (Sql.alter "FUNCTION" f.identifier "LEAKPROOF")]
        else [SqlGroup.s (Sql.alter "FUNCTION" f.identifier "NOT LEAKPROOF")]
      else if f.leakproof = some true then
        [SqlGroup.s (Sql.alter "FUNCTION" f.identifier "LEAKPROOF")]
      else ([] : List SqlGroup)) = [] := by
    rw [if_neg hleak, if_neg hleak]
  have h4 : diff_privileges "FUNCTION" f.identifier f.privileges f.privileges
      = [] := by
    unfold diff_privileges
    rw [if_neg (by simp)]
  have h5 : diff_description "FUNCTION" f.identifier f.description f.description
      = SqlGroup.nil := by
    unfold diff_description
    rw [if_neg (by simp)]
  rw [h1, h2, h3, h4, h5]
  rfl

theorem procDiffMap_self (f : Proc) (hleak : f.leakproof ≠ some true) :
    flats (Proc.diff_map f f) = [] ∧
    (Proc.diff_map f f).any groupStartsCreate = false := by
  unfold Proc.diff_map
  by_cases hagg : f.isAgg
  · rw [if_pos hagg]
    refine ⟨genericDiff_self _ _ _ _ _, ?_⟩
    unfold genericDiff
    rw [ownerSelf_nil]
    unfold diff_privileges
    rw [if_neg (by simp)]
    unfold diff_description
    rw [if_neg (by simp)]
    rfl
  · rw [if_neg hagg, funcDiffMap_self f hleak]
    exact ⟨rfl, rfl⟩

theorem hasKey_of_mem {κ α : Type} [DecidableEq κ] {m : List (κ × α)}
    {p : κ × α} (h : p ∈ m) : hasKey m p.1 = true := by
  induction m with
  | nil => cases h
  | cons a r ih =>
      obtain ⟨k0, v0⟩ := a
      by_cases hk : k0 = p.1
      · simp [hasKey, lookupKey, hk]
      · rcases List.mem_cons.mp h with h | h
        · exact absurd (congrArg Prod.fst h).symm hk
        · simp only [hasKey, lookupKey, hk, if_false]
          exact ih h

theorem typScanIn_self (cur : List ((String × String) × DbTypeObj)) :
    ∀ ds : List ((String × String) × DbTypeObj),
      (∀ p ∈ ds, hasKey cur p.1 = true) → typScanIn cur ds = .ok (cur, []) := by
  intro ds
  induction ds with
  | nil => intro _; rfl
  | cons a rest ih =>
      intro hmem
      obtain ⟨⟨sch, typ⟩, intype⟩ := a
      have hk : hasKey cur (sch, typ) = true :=
        hmem ((sch, typ), intype) (List.mem_cons_self _ _)
      simp only [typScanIn, hk, if_true]
      exact ih (fun p hp => hmem p (List.mem_cons_of_mem _ hp))

theorem typScanDb_self (des : List ((String × String) × DbTypeObj))
    (hnd : NoDupKeys des)
    (hsel : ∀ p ∈ des, (p : (String × String) × DbTypeObj).2.kind = .composite →
      ∃ atts, p.2.attributes = some atts ∧ ∀ a ∈ atts, attrFresh a) :
    ∀ l : List ((String × String) × DbTypeObj), (∀ p ∈ l, p ∈ des) →
      ∃ gs, typScanDb des l = .ok (l, gs) ∧ flats gs = [] := by
  intro l
  induction l with
  | nil => intro _; exact ⟨[], rfl, rfl⟩
  | cons a rest ih =>
      intro hmem
      obtain ⟨k, t⟩ := a
      have hmem0 : (k, t) ∈ des := hmem (k, t) (List.mem_cons_self _ _)
      have hl : lookupKey des k = some t := lookupKey_eq_of_mem hnd hmem0
      obtain ⟨ds, hds, hdsf⟩ := typDiffMap_self t (hsel (k, t) hmem0)
      obtain ⟨gs, hgs, hgsf⟩ := ih (fun p hp => hmem p (List.mem_cons_of_mem _ hp))
      refine ⟨SqlGroup.l ds :: gs, ?_, ?_⟩
      · simp only [typScanDb, hl, hds, hgs]
      · rw [flats_cons, flat_l, hdsf, hgsf]; rfl

theorem langScanIn_self (cur : List (String × Language)) (hnd : NoDupKeys cur) :
    ∀ ds : List (String × Language), (∀ p ∈ ds, p ∈ cur) →
      ∃ gs, langScanIn cur ds = .ok (cur, gs) ∧ flats gs = [] := by
  intro ds
  induction ds with
  | nil => intro _; exact ⟨[], rfl, rfl⟩
  | cons a rest ih =>
      intro hmem
      obtain ⟨lng, inlng⟩ := a
      have hmem0 : (lng, inlng) ∈ cur := hmem (lng, inlng) (List.mem_cons_self _ _)
      have hl : lookupKey cur lng = some inlng := lookupKey_eq_of_mem hnd hmem0
      obtain ⟨gs, hgs, hgsf⟩ := ih (fun p hp => hmem p (List.mem_cons_of_mem _ hp))
      by_cases hext : inlng.ext
      · exact ⟨gs, by simp only [langScanIn, hl, if_pos hext]; exact hgs, hgsf⟩
      · refine ⟨SqlGroup.l (Language.diff_map inlng inlng) :: gs, ?_, ?_⟩
        · simp only [langScanIn, hl, hext, Bool.false_eq_true, if_false, hgs]
        · rw [flats_cons, flat_l, langDiffMap_self, hgsf]; rfl

theorem procScanFuncs_self
    (cur : List ((String × String × String) × Proc)) (hnd : NoDupKeys cur)
    (hleak : ∀ p ∈ cur, (p : (String × String × String) × Proc).2.leakproof ≠
      some true) :
    ∀ ds : List ((String × String × String) × Proc), (∀ p ∈ ds, p ∈ cur) →
      ∃ gs, procScanFuncs cur ds = .ok (gs, false) ∧ flats gs = [] := by
  intro ds
  induction ds with
  | nil => intro _; exact ⟨[], rfl, rfl⟩
  | cons a rest ih =>
      intro hmem
      obtain ⟨k, infn⟩ := a
      obtain ⟨gs, hgs, hgsf⟩ := ih (fun p hp => hmem p (List.mem_cons_of_mem _ hp))
      by_cases hagg : infn.isAgg
      · exact ⟨gs, by simp only [procScanFuncs, hagg, if_true]; exact hgs, hgsf⟩
      · have hmem0 : (k, infn) ∈ cur := hmem (k, infn) (List.mem_cons_self _ _)
        have hl : lookupKey cur k = some infn := lookupKey_eq_of_mem hnd hmem0
        obtain ⟨hdf, hdc⟩ := procDiffMap_self infn (hleak (k, infn) hmem0)
        refine ⟨SqlGroup.l (Proc.diff_map infn infn) :: gs, ?_, ?_⟩
        · simp only [procScanFuncs, hagg, Bool.false_eq_true, if_false, hl, hgs,
            hdc, Bool.false_or]
        · rw [flats_cons, flat_l, hdf, hgsf]; rfl

theorem procScanAggs_self
    (cur : List ((String × String × String) × Proc)) (hnd : NoDupKeys cur)
    (hleak : ∀ p ∈ cur, (p : (String × String × String) × Proc).2.leakproof ≠
      some true) :
    ∀ ds : List ((String × String × String) × Proc), (∀ p ∈ ds, p ∈ cur) →
      ∃ gs, procScanAggs cur ds = .ok gs ∧ flats gs = [] := by
  intro ds
  induction ds with
  | nil => intro _; exact ⟨[], rfl, rfl⟩
  | cons a rest ih =>
      intro hmem
      obtain ⟨k, infn⟩ := a
      obtain ⟨gs, hgs, hgsf⟩ := ih (fun p hp => hmem p (List.mem_cons_of_mem _ hp))
      by_cases hagg : infn.isAgg
      · have hmem0 : (k, infn) ∈ cur := hmem (k, infn) (List.mem_cons_self _ _)
        have hl : lookupKey cur k = some infn := lookupKey_eq_of_mem hnd hmem0
        obtain ⟨hdf, _⟩ := procDiffMap_self infn (hleak (k, infn) hmem0)
        refine ⟨SqlGroup.l (Proc.diff_map infn infn) :: gs, ?_, ?_⟩
        · simp only [procScanAggs, hagg, Bool.not_true, Bool.false_eq_true,
            if_false, hl, hgs]
        · rw [flats_cons, flat_l, hdf, hgsf]; rfl
      · exact ⟨gs,
          by simp only [procScanAggs, hagg, Bool.not_false, if_true]; exact hgs,
          hgsf⟩

theorem fdwScanIn_self (cur : List (String × Fdw)) (hnd : NoDupKeys cur) :
    ∀ ds : List (String × Fdw), (∀ p ∈ ds, p ∈ cur) →
      ∃ gs, fdwScanIn cur ds = .ok (cur, gs) ∧ flats gs = [] := by
  intro ds
  induction ds with
  | nil => intro _; exact ⟨[], rfl, rfl⟩
  | cons a rest ih =>
      intro hmem
      obtain ⟨fdw, infdw⟩ := a
      have hmem0 : (fdw, infdw) ∈ cur := hmem (fdw, infdw) (List.mem_cons_self _ _)
      have hl : lookupKey cur fdw = some infdw := lookupKey_eq_of_mem hnd hmem0
      obtain ⟨gs, hgs, hgsf⟩ := ih (fun p hp => hmem p (List.mem_cons_of_mem _ hp))
      refine ⟨SqlGroup.l (Fdw.diff_map infdw infdw) :: gs, ?_, ?_⟩
      · simp only [fdwScanIn, hl, hgs]
      · rw [flats_cons, flat_l, fdwDiffMap_self, hgsf]; rfl

theorem srvScanIn_self (cur : List ((String × String) × Server))
    (hnd : NoDupKeys cur) :
    ∀ ds : List ((String × String) × Server), (∀ p ∈ ds, p ∈ cur) →
      ∃ gs, srvScanIn cur ds = .ok (cur, gs) ∧ flats gs = [] := by
  intro ds
  induction ds with
  | nil => intro _; exact ⟨[], rfl, rfl⟩
  | cons a rest ih =>
      intro hmem
      obtain ⟨⟨fdw, srv⟩, insrv⟩ := a
      have hmem0 : ((fdw, srv), insrv) ∈ cur :=
        hmem ((fdw, srv), insrv) (List.mem_cons_self _ _)
      have hl : lookupKey cur (fdw, srv) = some insrv := lookupKey_eq_of_mem hnd hmem0
      obtain ⟨gs, hgs, hgsf⟩ := ih (fun p hp => hmem p (List.mem_cons_of_mem _ hp))
      refine ⟨SqlGroup.l (Server.diff_map insrv insrv) :: gs, ?_, ?_⟩
      · simp only [srvScanIn, hl, hgs]
      · rw [flats_cons, flat_l, srvDiffMap_self, hgsf]; rfl

theorem umScanIn_self (cur : List ((String × String × String) × UserMap))
    (hnd : NoDupKeys cur) :
    ∀ ds : List ((String × String × String) × UserMap), (∀ p ∈ ds, p ∈ cur) →
      ∃ gs, umScanIn cur ds = .ok (cur, gs) ∧ flats gs = [] := by
  intro ds
  induction ds with
  | nil => intro _; exact ⟨[], rfl, rfl⟩
  | cons a rest ih =>
      intro hmem
      obtain ⟨⟨fdw, srv, usr⟩, inump⟩ := a
      have hmem0 : ((fdw, srv, usr), inump) ∈ cur :=
        hmem ((fdw, srv, usr), inump) (List.mem_cons_self _ _)
      have hl : lookupKey cur (fdw, srv, usr) = some inump :=
        lookupKey_eq_of_mem hnd hmem0
      obtain ⟨gs, hgs, hgsf⟩ := ih (fun p hp => hmem p (List.mem_cons_of_mem _ hp))
      refine ⟨SqlGroup.l (UserMap.diff_map inump inump) :: gs, ?_, ?_⟩
      · simp only [umScanIn, hl, hgs]
      · rw [flats_cons, flat_l, umDiffMap_self, hgsf]; rfl

theorem ftbScanIn_self (cur : List ((String × String) × FTable)) :
    ∀ ds : List ((String × String) × FTable),
      (∀ p ∈ ds, hasKey cur p.1 = true) → ftbScanIn cur ds = .ok (cur, []) := by
  intro ds
  induction ds with
  | nil => intro _; rfl
  | cons a rest ih =>
      intro hmem
      obtain ⟨⟨sch, tbl⟩, intbl⟩ := a
      have hk : hasKey cur (sch, tbl) = true :=
        hmem ((sch, tbl), intbl) (List.mem_cons_self _ _)
      simp only [ftbScanIn, hk, if_true]
      exact ih (fun p hp => hmem p (List.mem_cons_of_mem _ hp))

theorem ftbScanDb_self (des : List ((String × String) × FTable))
    (hnd : NoDupKeys des) :
    ∀ l : List ((String × String) × FTable), (∀ p ∈ l, p ∈ des) →
      flats (ftbScanDb des l) = [] := by
  intro l
  induction l with
  | nil => intro _; rfl
  | cons a rest ih =>
      intro hmem
      obtain ⟨k, t⟩ := a
      have hl : lookupKey des k = some t :=
        lookupKey_eq_of_mem hnd (hmem (k, t) (List.mem_cons_self _ _))
      simp only [ftbScanDb, hl]
      rw [flats_cons, flat_l, ftbDiffMap_self,
        ih (fun p hp => hmem p (List.mem_cons_of_mem _ hp))]
      rfl

theorem schScanIn_self (cur : List (String × Schema)) (hnd : NoDupKeys cur) :
    ∀ ds : List (String × Schema), (∀ p ∈ ds, p ∈ cur) →
      ∃ gs, schScanIn cur ds = .ok (cur, gs) ∧ flats gs = [] := by
  intro ds
  induction ds with
  | nil => intro _; exact ⟨[], rfl, rfl⟩
  | cons a rest ih =>
      intro hmem
      obtain ⟨sch, insch⟩ := a
      have hmem0 : (sch, insch) ∈ cur := hmem (sch, insch) (List.mem_cons_self _ _)
      have hl : lookupKey cur sch = some insch := lookupKey_eq_of_mem hnd hmem0
      obtain ⟨gs, hgs, hgsf⟩ := ih (fun p hp => hmem p (List.mem_cons_of_mem _ hp))
      refine ⟨SqlGroup.l (Schema.diff_map insch insch) :: gs, ?_, ?_⟩
      · simp only [schScanIn, hl, hgs]
      · rw [flats_cons, flat_l, schDiffMap_self, hgsf]; rfl

/-- C3 counterexample: reconciling a function collection against an equal
collection is not statement-free when the function is `LEAKPROOF`: the
leakproof branch of `Function.diff_map` re-emits `ALTER FUNCTION ...
LEAKPROOF` even though nothing differs. -/
theorem claim3_counterexample :
    (ProcDict.diff_map
      [(("s", "f", ""),
        { schema := "s", name := "f", arguments := "", language := some "sql",
          source := some "SELECT 1", leakproof := some true })]
      [(("s", "f", ""),
        { schema := "s", name := "f", arguments := "", language := some "sql",
          source := some "SELECT 1", leakproof := some true })]).map
      (fun r => flats r.2) =
      .ok [Sql.alter "FUNCTION" ("s" ++ "." ++ "f" ++ "(" ++ "" ++ ")")
        "LEAKPROOF"] := rfl

/-- C3 (amended): reconciling a collection against an equal collection
(unique keys; composite types carrying their fresh attribute lists; no
function with `leakproof` set true on both sides, since such a function
re-emits `ALTER FUNCTION ... LEAKPROOF`) yields zero statements once the
nested result lists are flattened and empty entries removed, for every
embedded kind, and leaves the current collection unchanged. -/
theorem claim3_amended_idempotence :
    (∀ cur : List ((String × String) × DbTypeObj), NoDupKeys cur →
       (∀ p ∈ cur, (p : (String × String) × DbTypeObj).2.kind = .composite →
         ∃ atts, p.2.attributes = some atts ∧ ∀ a ∈ atts, attrFresh a) →
       ∃ out, TypeDict.diff_map cur cur = .ok (cur, out) ∧ flats out = []) ∧
    (∀ (version : Nat) (cur : List (String × Language)), NoDupKeys cur →
       ∃ out, LanguageDict.diff_map version cur cur = .ok (cur, out) ∧
         flats out = []) ∧
    (∀ cur : List ((String × String × String) × Proc), NoDupKeys cur →
       (∀ p ∈ cur, (p : (String × String × String) × Proc).2.leakproof ≠
         some true) →
       ∃ out, ProcDict.diff_map cur cur = .ok (cur, out) ∧ flats out = []) ∧
    (∀ cur : List (String × Fdw), NoDupKeys cur →
       ∃ out, ForeignDataWrapperDict.diff_map cur cur = .ok (cur, out) ∧
         flats out = []) ∧
    (∀ cur : List ((String × String) × Server), NoDupKeys cur →
       ∃ out, ForeignServerDict.diff_map cur cur = .ok (cur, out) ∧
         flats out = []) ∧
    (∀ cur : List ((String × String × String) × UserMap), NoDupKeys cur →
       ∃ out, UserMappingDict.diff_map cur cur = .ok (cur, out) ∧
         flats out = []) ∧
    (∀ cur : List ((String × String) × FTable), NoDupKeys cur →
       ∃ out, ForeignTableDict.diff_map cur cur = .ok (cur, out) ∧
         flats out = []) ∧
    (∀ cur : List (String × Schema), NoDupKeys cur →
       ∃ out, SchemaDict.diff_map cur cur = .ok (cur, out) ∧ flats out = []) := by
  refine ⟨?_, ?_, ?_, ?_, ?_, ?_, ?_, ?_⟩
  · intro cur hnd hsel
    have hscan : typScanIn cur cur = .ok (cur, []) :=
      typScanIn_self cur cur (fun p hp => hasKey_of_mem hp)
    obtain ⟨gs2, hdb, hf⟩ := typScanDb_self cur hnd hsel cur (fun p hp => hp)
    refine ⟨[] ++ gs2, ?_, ?_⟩
    · simp only [TypeDict.diff_map, hscan, hdb]
    · rw [flats_append, flats_nil, hf]; rfl
  · intro version cur hnd
    obtain ⟨gs, hscan, hf⟩ := langScanIn_self cur hnd cur (fun p hp => hp)
    refine ⟨gs, ?_, hf⟩
    simp only [LanguageDict.diff_map, hscan, Except.ok.injEq, Prod.mk.injEq]
    constructor
    · unfold langMark
      apply map_id_of_mem
      intro p hp
      rw [if_pos (hasKey_of_mem hp)]
    · trivial
  · intro cur hnd hleak
    obtain ⟨gs1, hfns, hf1⟩ := procScanFuncs_self cur hnd hleak cur (fun p hp => hp)
    obtain ⟨gs2, hagg, hf2⟩ := procScanAggs_self cur hnd hleak cur (fun p hp => hp)
    refine ⟨gs1 ++ gs2, ?_, ?_⟩
    · simp only [ProcDict.diff_map, hfns, hagg, Bool.false_eq_true, if_false,
        Except.ok.injEq, Prod.mk.injEq]
      constructor
      · unfold procMark
        apply map_id_of_mem
        intro p hp
        rw [if_pos (hasKey_of_mem hp)]
      · trivial
    · rw [flats_append, hf1, hf2]; rfl
  · intro cur hnd
    obtain ⟨gs, hscan, hf⟩ := fdwScanIn_self cur hnd cur (fun p hp => hp)
    refine ⟨gs, ?_, hf⟩
    simp only [ForeignDataWrapperDict.diff_map, hscan, Except.ok.injEq,
      Prod.mk.injEq]
    constructor
    · apply map_id_of_mem
      intro p hp
      rw [if_pos (hasKey_of_mem hp)]
    · trivial
  · intro cur hnd
    obtain ⟨gs, hscan, hf⟩ := srvScanIn_self cur hnd cur (fun p hp => hp)
    refine ⟨gs, ?_, hf⟩
    simp only [ForeignServerDict.diff_map, hscan, Except.ok.injEq, Prod.mk.injEq]
    constructor
    · apply map_id_of_mem
      intro p hp
      rw [if_pos (hasKey_of_mem hp)]
    · trivial
  · intro cur hnd
    obtain ⟨gs, hscan, hf⟩ := umScanIn_self cur hnd cur (fun p hp => hp)
    have hdrop : cur.filterMap (fun p =>
        if hasKey cur p.1 then none else some (SqlGroup.l p.2.drop)) = [] := by
      rw [List.filterMap_eq_nil]
      intro p hp
      rw [if_pos (hasKey_of_mem hp)]
    refine ⟨gs ++ [], ?_, ?_⟩
    · simp only [UserMappingDict.diff_map, hscan, hdrop]
    · rw [flats_append, hf]; rfl
  · intro cur hnd
    have hscan : ftbScanIn cur cur = .ok (cur, []) :=
      ftbScanIn_self cur cur (fun p hp => hasKey_of_mem hp)
    refine ⟨[] ++ ftbScanDb cur cur, ?_, ?_⟩
    · simp only [ForeignTableDict.diff_map, hscan]
    · rw [flats_append, flats_nil, ftbScanDb_self cur hnd cur (fun p hp => hp)]
      rfl
  · intro cur hnd
    obtain ⟨gs, hscan, hf⟩ := schScanIn_self cur hnd cur (fun p hp => hp)
    refine ⟨gs, ?_, hf⟩
    simp only [SchemaDict.diff_map, hscan, Except.ok.injEq, Prod.mk.injEq]
    constructor
    · apply map_id_of_mem
      intro p hp
      have hk : hasKey cur p.1 = true := hasKey_of_mem hp
      rw [if_neg]
      intro hc
      rw [hk] at hc
      cases hc.2.2
    · trivial

theorem claim3_witness :
    NoDupKeys [(("s", "e1"),
      ({ schema := "s", name := "e1", kind := .enum } : DbTypeObj))] ∧
    NoDupKeys [("plpgsql", ({ name := "plpgsql" } : Language))] ∧
    (∃ out, TypeDict.diff_map
       [(("s", "e1"), { schema := "s", name := "e1", kind := .enum })]
       [(("s", "e1"), { schema := "s", name := "e1", kind := .enum })] =
       .ok ([(("s", "e1"), { schema := "s", name := "e1", kind := .enum })], out) ∧
       flats out = []) ∧
    (∃ out, LanguageDict.diff_map 90100
       [("plpgsql", { name := "plpgsql" })] [("plpgsql", { name := "plpgsql" })] =
       .ok ([("plpgsql", { name := "plpgsql" })], out) ∧ flats out = []) := by
  refine ⟨by simp [NoDupKeys], by simp [NoDupKeys], ?_, ?_⟩
  · exact claim3_amended_idempotence.1
      [(("s", "e1"), { schema := "s", name := "e1", kind := .enum })]
      (by simp [NoDupKeys])
      (by intro p hp hk
          fin_cases hp
          cases hk)
  · exact claim3_amended_idempotence.2.1 90100
      [("plpgsql", { name := "plpgsql" })] (by simp [NoDupKeys])

end Pyrseas
